import Mathlib

/-!
Verification of the anonymization engine in `src/sagemcom2mqtt/anonymize.py`.

Strings are embedded as `List Char`.  Python's `random` module is embedded as
a stream `g : Nat → Nat` together with a cursor `i`; `random.randint(lo, hi)`
consumes one stream element and reduces it into the inclusive range
`[lo, hi]`.  The module-global dict `REPLACEMENTS_MAP` is embedded as an
association list threaded through every function as explicit state.
-/

abbrev Str := List Char

def strL (s : String) : Str := s.toList

/-- Digit characters, used to model `string.digits` and `str.isdigit`. -/
def isDigitCh (c : Char) : Bool :=
  c = '0' ∨ c = '1' ∨ c = '2' ∨ c = '3' ∨ c = '4' ∨
  c = '5' ∨ c = '6' ∨ c = '7' ∨ c = '8' ∨ c = '9'

/-- Value of a decimal digit character (0 for non-digits). -/
def dval (c : Char) : Nat :=
  if c = '0' then 0 else if c = '1' then 1 else if c = '2' then 2 else
  if c = '3' then 3 else if c = '4' then 4 else if c = '5' then 5 else
  if c = '6' then 6 else if c = '7' then 7 else if c = '8' then 8 else
  if c = '9' then 9 else 0

def digitCh (n : Nat) : Char :=
  if n = 0 then '0' else if n = 1 then '1' else if n = 2 then '2' else
  if n = 3 then '3' else if n = 4 then '4' else if n = 5 then '5' else
  if n = 6 then '6' else if n = 7 then '7' else if n = 8 then '8' else '9'

/-- Hexadecimal digit characters (both cases), as in `[0-9A-Fa-f]`. -/
def isHexCh (c : Char) : Bool :=
  isDigitCh c ∨
  c = 'a' ∨ c = 'b' ∨ c = 'c' ∨ c = 'd' ∨ c = 'e' ∨ c = 'f' ∨
  c = 'A' ∨ c = 'B' ∨ c = 'C' ∨ c = 'D' ∨ c = 'E' ∨ c = 'F'

/-- Value of a hexadecimal digit character (0 for others). -/
def hval (c : Char) : Nat :=
  if isDigitCh c then dval c else
  if c = 'a' ∨ c = 'A' then 10 else if c = 'b' ∨ c = 'B' then 11 else
  if c = 'c' ∨ c = 'C' then 12 else if c = 'd' ∨ c = 'D' then 13 else
  if c = 'e' ∨ c = 'E' then 14 else if c = 'f' ∨ c = 'F' then 15 else 0

/-- Lowercase hexadecimal digit for a value below 16, as produced by
Python's `%x` format. -/
def hexCh (n : Nat) : Char :=
  if n < 10 then digitCh n else
  if n = 10 then 'a' else if n = 11 then 'b' else if n = 12 then 'c' else
  if n = 13 then 'd' else if n = 14 then 'e' else 'f'

/-- Python `'{:02x}'.format(n)` for `n ≤ 255`: two lowercase hex digits. -/
def hex2 (n : Nat) : Str := [hexCh (n / 16), hexCh (n % 16)]

/-- Python `'{:04x}'.format(n)` for `n ≤ 65535`: four lowercase hex digits. -/
def hex4 (n : Nat) : Str :=
  [hexCh (n / 4096), hexCh (n / 256 % 16), hexCh (n / 16 % 16), hexCh (n % 16)]

/-- Python `'{:x}'.format(n)` for `n ≤ 65535`: minimal-width lowercase hex,
as used by `ipaddress` when rendering one IPv6 hextet. -/
def hexMin (n : Nat) : Str :=
  if n < 16 then [hexCh n] else
  if n < 256 then [hexCh (n / 16), hexCh (n % 16)] else
  if n < 4096 then [hexCh (n / 256), hexCh (n / 16 % 16), hexCh (n % 16)] else
  hex4 n

/-- Python `str(n)` for the octet values that occur here (all below 1000). -/
def natDec (n : Nat) : Str :=
  if n < 10 then [digitCh n] else
  if n < 100 then [digitCh (n / 10), digitCh (n % 10)] else
  [digitCh (n / 100), digitCh (n / 10 % 10), digitCh (n % 10)]

/-- Python `int(s)` on an all-digit string. -/
def decToNat (s : Str) : Nat := s.foldl (fun a c => a * 10 + dval c) 0

/-- Python's single-character `s.split(sep)`. -/
def splitOnCh (sep : Char) : Str → List Str
  | [] => [[]]
  | c :: cs =>
    if c = sep then [] :: splitOnCh sep cs
    else
      match splitOnCh sep cs with
      | [] => [[c]]
      | g :: gs => (c :: g) :: gs

/-- Python `hay.startswith(pre)` on lists of characters. -/
def startsWithL : Str → Str → Bool
  | _, [] => true
  | [], _ :: _ => false
  | h :: hs, p :: ps => h = p && startsWithL hs ps

/-- Python `needle in hay` (substring containment). -/
def containsSub : Str → Str → Bool
  | hay, needle =>
    startsWithL hay needle ||
      match hay with
      | [] => false
      | _ :: hs => containsSub hs needle

/-- Python `sep.join(parts)`. -/
def joinSep (sep : Str) : List Str → Str
  | [] => []
  | [p] => p
  | p :: ps => p ++ sep ++ joinSep sep ps

/-- Lookup in the replacement store (`original in REPLACEMENTS_MAP` /
`REPLACEMENTS_MAP[original]`). -/
def storeFind : List (Str × Str) → Str → Option Str
  | [], _ => none
  | (k, v) :: r, s => if k = s then some v else storeFind r s

/-- Engine state: the module-global `REPLACEMENTS_MAP` plus the stream and
cursor modelling the `random` module. -/
structure AState where
  store : List (Str × Str)
  g : Nat → Nat
  i : Nat

/-- `REPLACEMENTS_MAP[k] = v` (only ever executed when `k` is absent). -/
def addStore (k v : Str) (st : AState) : AState :=
  { st with store := (k, v) :: st.store }

/-- Python `random.randint(lo, hi)` (inclusive bounds): consume one stream
element and reduce it into the range. -/
def randint (lo hi : Nat) (st : AState) : Nat × AState :=
  (lo + st.g st.i % (hi + 1 - lo), { st with i := st.i + 1 })

-- --- MAC replacement (`get_or_create_mac_replacement`) ---

/-- `get_or_create_mac_replacement`: memoized; otherwise split on the
character at index 2, keep the first three groups, append three random
bytes as two lowercase hex digits each, re-join and uppercase. -/
def getOrCreateMacReplacement (s : Str) (st : AState) : Str × AState :=
  match storeFind st.store s with
  | some r => (r, st)
  | none =>
    let sep := s.getD 2 ' '
    let parts := splitOnCh sep s
    let (r1, st1) := randint 0 255 st
    let (r2, st2) := randint 0 255 st1
    let (r3, st3) := randint 0 255 st2
    let newParts := parts.take 3 ++ [hex2 r1, hex2 r2, hex2 r3]
    let newMac := (joinSep [sep] newParts).map Char.toUpper
    (newMac, addStore s newMac st3)

-- --- IPv4 replacement (`get_or_create_ipv4_replacement`, `sub_ipv4_match`) ---

/-- One dotted-quad octet as accepted by Python's `ipaddress`: one to three
decimal digits, no leading zero, value at most 255. -/
def validOctetStr (p : Str) : Bool :=
  p ≠ [] && p.length ≤ 3 && p.all isDigitCh &&
  (p.length = 1 || p.headD ' ' ≠ '0') && decToNat p ≤ 255

/-- Success / octets of `ipaddress.ip_address(s)` for an IPv4 candidate
(the only form the IPv4 scanner can hand over: digits and dots). -/
def parseIPv4 (s : Str) : Option (Nat × Nat × Nat × Nat) :=
  match splitOnCh '.' s with
  | [p1, p2, p3, p4] =>
    if validOctetStr p1 && validOctetStr p2 && validOctetStr p3 &&
        validOctetStr p4 then
      some (decToNat p1, decToNat p2, decToNat p3, decToNat p4)
    else none
  | _ => none

/-- Python `'.'.join(map(str, os))`. -/
def renderIPv4 (os : List Nat) : Str :=
  joinSep (strL ".") (os.map natDec)

/-- `get_or_create_ipv4_replacement`: memoized; `192.168.x.y` keeps the
prefix and randomizes `y` when `1 < y < 255`, else stays intact (and is
still stored); every other address becomes `10.<r>.<r>.<d>` with the last
octet preserved when it is 0, 1 or 255 and random in 2–254 otherwise. -/
def getOrCreateIpv4Replacement (s : Str) (st : AState) : Str × AState :=
  match storeFind st.store s with
  | some r => (r, st)
  | none =>
    let octets := (splitOnCh '.' s).map decToNat
    if octets.getD 0 0 = 192 ∧ octets.getD 1 0 = 168 then
      if 1 < octets.getD 3 0 ∧ octets.getD 3 0 < 255 then
        let (r, st1) := randint 2 254 st
        let newIp := renderIPv4 (octets.take 3 ++ [r])
        (newIp, addStore s newIp st1)
      else
        (s, addStore s s st)
    else
      let (ra, st1) := randint 0 255 st
      let (rb, st2) := randint 0 255 st1
      let d := octets.getD 3 0
      if d = 0 ∨ d = 1 ∨ d = 255 then
        let newIp := renderIPv4 [10, ra, rb, d]
        (newIp, addStore s newIp st2)
      else
        let (rc, st3) := randint 2 254 st2
        let newIp := renderIPv4 [10, ra, rb, rc]
        (newIp, addStore s newIp st3)

/-- `sub_ipv4_match`: invalid addresses pass through; loopback
(`127.0.0.0/8`), unspecified (`0.0.0.0`) and strings beginning with `255.`
pass through; the rest are replaced via the store. -/
def subIpv4Match (s : Str) (st : AState) : Str × AState :=
  match parseIPv4 s with
  | none => (s, st)
  | some (a, b, c, d) =>
    if a = 127 ∨ (a = 0 ∧ b = 0 ∧ c = 0 ∧ d = 0) ∨
        startsWithL s (strL "255.") then
      (s, st)
    else getOrCreateIpv4Replacement s st

-- --- IPv6 replacement (`get_or_create_ipv6_replacement`, `sub_ipv6_match`) ---

/-- One IPv6 hextet as accepted by `ipaddress`: one to four hex digits. -/
def validHextetStr (p : Str) : Bool :=
  p ≠ [] && p.length ≤ 4 && p.all isHexCh

def hextetVal (p : Str) : Nat := p.foldl (fun a c => a * 16 + hval c) 0

/-- Success / hextets of `ipaddress.IPv6Address(s)` for the colon-and-hex
candidates the IPv6 scanner produces.  The scanner's pattern
`(?:[a-f0-9]{1,4}:){2,7}[a-f0-9]{1,4}` never yields a `::` compression or
leading/trailing colon, so only the full eight-group form parses here. -/
def parseIPv6 (s : Str) : Option (List Nat) :=
  let parts := splitOnCh ':' s
  if parts.length = 8 && parts.all validHextetStr then
    some (parts.map hextetVal)
  else none

/-- The zero-run compression performed by CPython
`ipaddress._IPAddressBase._compress_hextets`: locate the leftmost longest
run of zero hextets; when it is at least two long, splice in an empty
marker (doubling the colon), padding at either end. -/
def bestZeroRun (hs : List Nat) : Nat × Nat :=
  -- fold state: (next index, best run start, best run length, current run length)
  let f := fun (acc : Nat × Nat × Nat × Nat) (h : Nat) =>
    let (idx, bestStart, bestLen, curLen) := acc
    if h = 0 then
      let newCur := curLen + 1
      if newCur > bestLen then (idx + 1, idx - curLen, newCur, newCur)
      else (idx + 1, bestStart, bestLen, newCur)
    else (idx + 1, bestStart, bestLen, 0)
  let (_, bs, bl, _) := hs.foldl f (0, 0, 0, 0)
  (bs, bl)

/-- CPython `ipaddress.IPv6Address.__str__`: minimal hex per hextet, with
the leftmost longest zero-run of length at least two compressed to `::`. -/
def renderIPv6 (hs : List Nat) : Str :=
  let texts := hs.map hexMin
  let (bs, bl) := bestZeroRun hs
  if bl > 1 then
    let withEnd := if bs + bl = hs.length then texts ++ [[]] else texts
    let spliced := withEnd.take bs ++ [[]] ++ withEnd.drop (bs + bl)
    let final := if bs = 0 then [] :: spliced else spliced
    joinSep (strL ":") final
  else
    joinSep (strL ":") texts

/-- The loop in `get_or_create_ipv6_replacement`: keep `0000`/`0001`
groups, replace every other group by a fresh random four-hex-digit one. -/
def transformTail : List Str → AState → List Str × AState
  | [], st => ([], st)
  | p :: ps, st =>
    if p = strL "0000" ∨ p = strL "0001" then
      let (rest, st1) := transformTail ps st
      (p :: rest, st1)
    else
      let (r, st1) := randint 0 65535 st
      let (rest, st2) := transformTail ps st1
      (hex4 r :: rest, st2)

/-- Number of random draws the transformation loop consumes on the first
`n` tail groups: groups rendering to `0000`/`0001` consume none, every
other group consumes exactly one. -/
def drawsBefore : List Str → Nat → Nat
  | _, 0 => 0
  | [], _ + 1 => 0
  | p :: ps, n + 1 =>
    (if p = strL "0000" ∨ p = strL "0001" then 0 else 1) + drawsBefore ps n

/-- `get_or_create_ipv6_replacement`: memoized; explode, keep the first
group and every `0000`/`0001` group, randomize the rest, then re-parse the
joined groups and render in compressed form (`str(IPv6Address(...))`). -/
def getOrCreateIpv6Replacement (s : Str) (st : AState) : Str × AState :=
  match storeFind st.store s with
  | some r => (r, st)
  | none =>
    match parseIPv6 s with
    | none => (s, st)   -- a ValueError would propagate; callers pre-validate
    | some hs =>
      let parts := hs.map hex4
      let (tl, st1) := transformTail (parts.drop 1) st
      let newParts := parts.take 1 ++ tl
      match parseIPv6 (joinSep (strL ":") newParts) with
      | none => (s, st1)
      | some vs =>
        let newIp := renderIPv6 vs
        (newIp, addStore s newIp st1)

/-- `sub_ipv6_match`: validate, then replace via the store; invalid
candidates pass through unchanged. -/
def subIpv6Match (s : Str) (st : AState) : Str × AState :=
  match parseIPv6 s with
  | none => (s, st)
  | some _ => getOrCreateIpv6Replacement s st

-- --- SSID replacement (`get_or_create_ssid_replacement`) ---

def wittySSIDs : List Str :=
  [strL "Tell my WiFi love her",
   strL "Pretty Fly for a Wi-Fi",
   strL "The LAN Before Time",
   strL "Searching...",
   strL "Get off my LAN"]

/-- Python `random.choice(l)`: one stream element reduced modulo the
length. -/
def randChoice (l : List Str) (st : AState) : Str × AState :=
  (l.getD (st.g st.i % l.length) [], { st with i := st.i + 1 })

/-- `get_or_create_ssid_replacement`: memoized random pick from the fixed
placeholder list. -/
def getOrCreateSsidReplacement (s : Str) (st : AState) : Str × AState :=
  match storeFind st.store s with
  | some r => (r, st)
  | none =>
    let (newSsid, st1) := randChoice wittySSIDs st
    (newSsid, addStore s newSsid st1)

-- --- Regex scanning (`PATTERN.sub(callback, text)`) ---

/-- Python regex word character `\w` on the ASCII data at hand. -/
def wordChar (c : Char) : Bool := c.isAlphanum || c = '_'

/-- Word-boundary condition after a match: end of input or a non-word
character (every match here ends in a word character). -/
def boundaryOk : Str → Bool
  | [] => true
  | c :: _ => !wordChar c

/-- Token shape of `MAC_ADDRESS_PATTERN`
(`(?:[0-9A-Fa-f]{2}[:-]){5}(?:[0-9A-Fa-f]{2})`): six two-hex-digit groups,
each of the five separators independently `:` or `-`. -/
def macMatches : Str → Bool
  | [a1, a2, s1, b1, b2, s2, c1, c2, s3, d1, d2, s4, e1, e2, s5, f1, f2] =>
    isHexCh a1 && isHexCh a2 && (s1 = ':' || s1 = '-') &&
    isHexCh b1 && isHexCh b2 && (s2 = ':' || s2 = '-') &&
    isHexCh c1 && isHexCh c2 && (s3 = ':' || s3 = '-') &&
    isHexCh d1 && isHexCh d2 && (s4 = ':' || s4 = '-') &&
    isHexCh e1 && isHexCh e2 && (s5 = ':' || s5 = '-') &&
    isHexCh f1 && isHexCh f2
  | _ => false

/-- Match attempt for `MAC_ADDRESS_PATTERN` at the head of the input
(fixed 17-character tokens, so no backtracking exists). -/
def tryMac (cs : Str) : Option (Str × Str) :=
  let tok := cs.take 17
  let rest := cs.drop 17
  if macMatches tok && boundaryOk rest then some (tok, rest) else none

/-- Length of the leading run of decimal digits. -/
def digitRun : Str → Nat
  | [] => 0
  | c :: cs => if isDigitCh c then digitRun cs + 1 else 0

/-- Length of the leading run of hex digits. -/
def hexRun : Str → Nat
  | [] => 0
  | c :: cs => if isHexCh c then hexRun cs + 1 else 0

/-- Match attempt for `IPV4_PATTERN` (`(?:\d{1,3}\.){3}\d{1,3}`) at the
head of the input.  `\d{1,3}` is greedy and `.` is not a digit, so each
group must be a maximal digit run of length 1–3; a longer run fails under
every backtracking choice.  The trailing `\b` holds iff the character
after the last run is absent or a non-word character. -/
def tryIpv4 (cs : Str) : Option (Str × Str) :=
  let r1 := digitRun cs
  let t1 := cs.drop r1
  if 1 ≤ r1 ∧ r1 ≤ 3 ∧ t1.headD ' ' = '.' then
    let u1 := t1.drop 1
    let r2 := digitRun u1
    let t2 := u1.drop r2
    if 1 ≤ r2 ∧ r2 ≤ 3 ∧ t2.headD ' ' = '.' then
      let u2 := t2.drop 1
      let r3 := digitRun u2
      let t3 := u2.drop r3
      if 1 ≤ r3 ∧ r3 ≤ 3 ∧ t3.headD ' ' = '.' then
        let u3 := t3.drop 1
        let r4 := digitRun u3
        if 1 ≤ r4 ∧ r4 ≤ 3 ∧ boundaryOk (u3.drop r4) then
          let len := r1 + 1 + r2 + 1 + r3 + 1 + r4
          some (cs.take len, cs.drop len)
        else none
      else none
    else none
  else none

/-- One unit `[a-f0-9]{1,4}:` of the IPv6 pattern: a maximal hex run of
length 1–4 followed by a colon; returns the consumed length. -/
def parseUnit (cs : Str) : Option Nat :=
  let r := hexRun cs
  if 1 ≤ r ∧ r ≤ 4 ∧ (cs.drop r).headD ' ' = ':' then some (r + 1)
  else none

/-- Greedy collection of at most seven units; returns (count, length). -/
def collectUnits : Nat → Str → Nat × Nat
  | 0, _ => (0, 0)
  | fuel + 1, cs =>
    match parseUnit cs with
    | none => (0, 0)
    | some len =>
      let (c, t) := collectUnits fuel (cs.drop len)
      (c + 1, len + t)

/-- Match attempt for `IPV6_PATTERN`
(`(?:[a-f0-9]{1,4}:){2,7}[a-f0-9]{1,4}` case-insensitive) at the head of
the input.  The repetition is greedy; when the final `[a-f0-9]{1,4}\b`
fails after the greedy unit count `k`, the engine backtracks to `k - 1`
units, whose final group is then followed by a colon (a non-word
character), so the boundary holds; `k - 1` must still be at least two. -/
def tryIpv6 (cs : Str) : Option (Str × Str) :=
  let (k, ulen) := collectUnits 7 cs
  let after := cs.drop ulen
  let h := hexRun after
  if 1 ≤ h ∧ h ≤ 4 ∧ boundaryOk (after.drop h) ∧ 2 ≤ k then
    some (cs.take (ulen + h), after.drop h)
  else if 3 ≤ k then
    some (cs.take (ulen - 1), cs.drop (ulen - 1))
  else none

/-- Embedding of `PATTERN.sub(repl, text)` for the three patterns above:
left-to-right scan; a match may start only at a word boundary (all three
patterns start with `\b` and a word character); scanning resumes after
each replaced match.  `prevOk` records whether the previous character (if
any) permits a boundary; `fuel` bounds recursion — every step consumes at
least one input character, so `text.length + 1` never runs out. -/
def scanSub (tryM : Str → Option (Str × Str))
    (repl : Str → AState → Str × AState) :
    Nat → Bool → Str → AState → Str × AState
  | 0, _, cs, st => (cs, st)
  | _ + 1, _, [], st => ([], st)
  | fuel + 1, prevOk, c :: cs, st =>
    match (if prevOk then tryM (c :: cs) else none) with
    | some (m, rest) =>
      let (r, st1) := repl m st
      let nextOk := match m.getLast? with
        | some lc => !wordChar lc
        | none => prevOk
      let (t, st2) := scanSub tryM repl fuel nextOk rest st1
      (r ++ t, st2)
    | none =>
      let (t, st1) := scanSub tryM repl fuel (!wordChar c) cs st
      (c :: t, st1)

/-- `sub_mac_match` is just the store-backed replacement. -/
def macSubAll (s : Str) (st : AState) : Str × AState :=
  scanSub tryMac getOrCreateMacReplacement (s.length + 1) true s st

def ipv4SubAll (s : Str) (st : AState) : Str × AState :=
  scanSub tryIpv4 subIpv4Match (s.length + 1) true s st

def ipv6SubAll (s : Str) (st : AState) : Str × AState :=
  scanSub tryIpv6 subIpv6Match (s.length + 1) true s st

-- --- JSON values and the value policy (`anonymize_value`) ---

inductive JVal where
  | str (s : Str)
  | num (n : Int)
  | bool (b : Bool)
  | null
  | arr (xs : List JVal)
  | obj (fields : List (Str × JVal))

/-- The module constant `FAKE_SERIAL_NUMBER`:
`'JW' + 12 × random.choice(string.digits)`, drawn once at import time from
the stream `g`. -/
def fakeSerialNumber (g : Nat → Nat) : Str :=
  'J' :: 'W' :: (List.range 12).map fun j => digitCh (g j % 10)

/-- `string.ascii_letters + string.digits`, the password alphabet. -/
def alnumChars : Str :=
  strL "abcdefghijklmnopqrstuvwxyzABCDEFGHIJKLMNOPQRSTUVWXYZ0123456789"

/-- Python `random.choices(alnumChars, k=n)` as `n` successive draws. -/
def drawN : Nat → AState → Str × AState
  | 0, st => ([], st)
  | n + 1, st =>
    let c := alnumChars.getD (st.g st.i % alnumChars.length) ' '
    let (rest, st1) := drawN n { st with i := st.i + 1 }
    (c :: rest, st1)

/-- `anonymize_value(key, value)`: non-strings and empty strings pass;
then key exclusions (version / ssid_reference / prefix-with-colon), then
key-directed rules (serial number, password, ssid, bssid), then the three
content scans in order MAC, IPv4, IPv6.  `serial` is the module constant
`FAKE_SERIAL_NUMBER`. -/
def anonymizeValue (serial : Str) (key : Str) (v : JVal) (st : AState) :
    JVal × AState :=
  match v with
  | JVal.str s =>
    if s = [] then (v, st) else
    let kl := key.map Char.toLower
    if containsSub kl (strL "version") || containsSub kl (strL "ssid_reference")
    then (v, st)
    else if containsSub kl (strL "prefix") && s.contains ':' then (v, st)
    else if kl = strL "serial_number" then (JVal.str serial, st)
    else if (containsSub kl (strL "password") ||
        containsSub kl (strL "passphrase")) && !s.isEmpty then
      let (pw, st1) := drawN 12 st
      (JVal.str pw, st1)
    else if kl = strL "ssid" then
      let (r, st1) := getOrCreateSsidReplacement s st
      (JVal.str r, st1)
    else if kl = strL "bssid" then
      let (r, st1) := macSubAll s st
      (JVal.str r, st1)
    else
      let (v1, st1) := macSubAll s st
      let (v2, st2) := ipv4SubAll v1 st1
      let (v3, st3) := ipv6SubAll v2 st2
      (JVal.str v3, st3)
  | _ => (v, st)

-- --- Document walker (`anonymize_data`) ---

mutual

/-- `anonymize_data(data)`: objects map each field through a recursive
walk of the value and then `anonymize_value` with the field's key; arrays
walk their elements; every other node is returned unchanged. -/
def anonymizeData (serial : Str) : JVal → AState → JVal × AState
  | JVal.obj fs, st =>
    let (fs1, st1) := anonymizeFields serial fs st
    (JVal.obj fs1, st1)
  | JVal.arr xs, st =>
    let (xs1, st1) := anonymizeList serial xs st
    (JVal.arr xs1, st1)
  | v, st => (v, st)

def anonymizeFields (serial : Str) :
    List (Str × JVal) → AState → List (Str × JVal) × AState
  | [], st => ([], st)
  | (k, v) :: fs, st =>
    let (dv, st1) := anonymizeData serial v st
    let (av, st2) := anonymizeValue serial k dv st1
    let (fs1, st3) := anonymizeFields serial fs st2
    ((k, av) :: fs1, st3)

def anonymizeList (serial : Str) : List JVal → AState → List JVal × AState
  | [], st => ([], st)
  | v :: xs, st =>
    let (dv, st1) := anonymizeData serial v st
    let (xs1, st2) := anonymizeList serial xs st1
    (dv :: xs1, st2)

end

-- --- Driver (`anonymize_file`, `main`) ---

/-- Result of one `anonymize_file` call: the lines printed (all go to
standard output — the code uses bare `print`), the file system after the
call, and the engine state after the call. -/
structure DriverResult where
  printed : List Str
  fs : List (Str × Str)
  state : AState

/-- Python truthiness of an optional path argument (`not input_file`):
`None` and the empty string are falsy. -/
def falsyPath : Option Str → Bool
  | none => true
  | some [] => true
  | some (_ :: _) => false

/-- `anonymize_file(input_file, output_file)`.  `parseJson` and `dumpJson`
stand for the `json` standard library (`json.load` / `json.dump`); the
file system is an association list of path → contents.  All failure
messages are produced with `print` (standard output) and the function
returns normally. -/
def anonymizeFile (parseJson : Str → Option JVal) (dumpJson : JVal → Str)
    (serial : Str) (fs : List (Str × Str))
    (inputFile outputFile : Option Str) (st : AState) : DriverResult :=
  if falsyPath inputFile || falsyPath outputFile then
    { printed := [strL "Error: Both input and output file paths must be provided."],
      fs := fs, state := st }
  else
    let inp := inputFile.getD []
    let outp := outputFile.getD []
    match storeFind fs inp with
    | none =>
      { printed := [strL "Error: '" ++ inp ++ strL "' not found."],
        fs := fs, state := st }
    | some contents =>
      match parseJson contents with
      | none =>
        { printed := [strL "Error: Could not decode JSON from '" ++ inp ++
            strL "'."],
          fs := fs, state := st }
      | some data =>
        let (outData, st1) := anonymizeData serial data st
        { printed := [strL "Anonymized data written to " ++ outp],
          fs := (outp, dumpJson outData) :: fs, state := st1 }

/-- `main()`: `output_file` is optional with `default=None` and is passed
to `anonymize_file` as-is; the function never raises `SystemExit` itself,
so the interpreter exits with status 0. -/
def mainRun (parseJson : Str → Option JVal) (dumpJson : JVal → Str)
    (serial : Str) (fs : List (Str × Str))
    (inputFile : Str) (outputFile : Option Str) (st : AState) :
    DriverResult × Nat :=
  (anonymizeFile parseJson dumpJson serial fs (some inputFile) outputFile st, 0)

def exSt : AState := { store := [], g := fun _ => 0, i := 0 }

def isScalar : JVal → Bool
  | JVal.arr _ => false
  | JVal.obj _ => false
  | _ => true

/-- Projection of a string node (used to compare string payloads). -/
def jstr : JVal → Str
  | JVal.str s => s
  | _ => []

/-- One application of a store-backed replacement rule during a run. -/
inductive ROp where
  | mac (s : Str)
  | ip4 (s : Str)
  | ip6 (s : Str)
  | ssid (s : Str)

def ROp.value : ROp → Str
  | .mac s => s
  | .ip4 s => s
  | .ip6 s => s
  | .ssid s => s

def applyROp : ROp → AState → Str × AState
  | .mac s, st => getOrCreateMacReplacement s st
  | .ip4 s, st => getOrCreateIpv4Replacement s st
  | .ip6 s, st => getOrCreateIpv6Replacement s st
  | .ssid s, st => getOrCreateSsidReplacement s st

def runROps : List ROp → AState → AState
  | [], st => st
  | op :: ops, st => runROps ops (applyROp op st).2

/-- The shapes the program actually passes to each rule: MAC tokens come
from the MAC pattern, IPv4/IPv6 strings have been validated by the `sub`
callbacks; SSIDs are arbitrary. -/
def opValid : ROp → Bool
  | .mac s => macMatches s
  | .ip4 s => (parseIPv4 s).isSome
  | .ip6 s => (parseIPv6 s).isSome
  | .ssid _ => true

/-- Concrete document source for the two-run scenario: file contents `A`
and `B` parse to one-field objects holding the same IPv4 address. -/
def exParse : Str → Option JVal := fun c =>
  if c = strL "A" then
    some (JVal.obj [(strL "wan_ip", JVal.str (strL "8.8.8.8"))])
  else if c = strL "B" then
    some (JVal.obj [(strL "lan_ip", JVal.str (strL "8.8.8.8"))])
  else none

/-- Concrete document sink: serialize a one-string-field object as the
field's string. -/
def exDump : JVal → Str
  | JVal.obj ((_, JVal.str s) :: _) => s
  | _ => []

def exFs : List (Str × Str) := [(strL "in1", strL "A"), (strL "in2", strL "B")]

def exStId : AState := { store := [], g := fun n => n, i := 0 }

-- --- Infrastructure lemmas ---

theorem splitOnCh_no_sep {sep : Char} {a : Str} (h : sep ∉ a) :
    splitOnCh sep a = [a] := by
  induction a with
  | nil => rfl
  | cons c cs ih =>
    have hc : c ≠ sep := fun hcv => h (hcv ▸ List.mem_cons_self c cs)
    have hcs : sep ∉ cs := fun hm => h (List.mem_cons_of_mem c hm)
    simp [splitOnCh, hc, ih hcs]

theorem splitOnCh_append {sep : Char} {a b : Str} (h : sep ∉ a) :
    splitOnCh sep (a ++ sep :: b) = a :: splitOnCh sep b := by
  induction a with
  | nil => simp [splitOnCh]
  | cons c cs ih =>
    have hc : c ≠ sep := fun hcv => h (hcv ▸ List.mem_cons_self c cs)
    have hcs : sep ∉ cs := fun hm => h (List.mem_cons_of_mem c hm)
    simp only [List.cons_append, splitOnCh, if_neg hc]
    rw [show cs.append (sep :: b) = cs ++ sep :: b from rfl, ih hcs]

theorem dval_lt_ten (c : Char) : dval c < 10 := by
  unfold dval
  repeat' split
  all_goals decide

theorem digitCh_dval {c : Char} (h : isDigitCh c = true) :
    digitCh (dval c) = c := by
  have h2 : c = '0' ∨ c = '1' ∨ c = '2' ∨ c = '3' ∨ c = '4' ∨ c = '5' ∨
      c = '6' ∨ c = '7' ∨ c = '8' ∨ c = '9' := by
    simpa [isDigitCh] using h
  rcases h2 with rfl | rfl | rfl | rfl | rfl | rfl | rfl | rfl | rfl | rfl <;>
    decide

theorem hval_lt_sixteen (c : Char) : hval c < 16 := by
  unfold hval
  repeat' split
  · exact Nat.lt_of_lt_of_le (dval_lt_ten c) (by decide)
  all_goals decide

theorem hval_hexCh {m : Nat} (h : m < 16) : hval (hexCh m) = m := by
  interval_cases m <;> decide

theorem isHexCh_hexCh {m : Nat} (h : m < 16) : isHexCh (hexCh m) = true := by
  interval_cases m <;> decide

theorem digitCh_lt {m : Nat} (h : m < 10) : isDigitCh (digitCh m) = true := by
  interval_cases m <;> decide

theorem dval_pos {c : Char} (hd : isDigitCh c = true) (h0 : c ≠ '0') :
    1 ≤ dval c := by
  have h2 : c = '0' ∨ c = '1' ∨ c = '2' ∨ c = '3' ∨ c = '4' ∨ c = '5' ∨
      c = '6' ∨ c = '7' ∨ c = '8' ∨ c = '9' := by
    simpa [isDigitCh] using hd
  rcases h2 with rfl | rfl | rfl | rfl | rfl | rfl | rfl | rfl | rfl | rfl
  · exact absurd rfl h0
  all_goals decide

/-- Octet strings accepted by the IPv4 validator render back to themselves:
`str(int(p)) == p`. -/
theorem natDec_decToNat {p : Str} (h : validOctetStr p = true) :
    natDec (decToNat p) = p := by
  unfold validOctetStr at h
  simp only [Bool.and_eq_true, decide_eq_true_eq, List.all_eq_true,
    Bool.or_eq_true] at h
  obtain ⟨⟨⟨⟨hne, hlen⟩, hdig⟩, hhead⟩, _⟩ := h
  match p, hne with
  | [x], _ =>
    have hx := hdig x (by simp)
    have hv : decToNat [x] = dval x := by simp [decToNat]
    rw [hv]
    unfold natDec
    rw [if_pos (dval_lt_ten x), digitCh_dval hx]
  | [x, y], _ =>
    have hx := hdig x (by simp)
    have hy := hdig y (by simp)
    have hx0 : x ≠ '0' := by
      rcases hhead with habs | hh
      · simp at habs
      · simpa using hh
    have ha := dval_lt_ten x
    have hb := dval_lt_ten y
    have hpos := dval_pos hx hx0
    have hv : decToNat [x, y] = dval x * 10 + dval y := by simp [decToNat]
    rw [hv]
    unfold natDec
    rw [if_neg (by omega), if_pos (by omega)]
    rw [show (dval x * 10 + dval y) / 10 = dval x by omega,
      show (dval x * 10 + dval y) % 10 = dval y by omega,
      digitCh_dval hx, digitCh_dval hy]
  | [x, y, z], _ =>
    have hx := hdig x (by simp)
    have hy := hdig y (by simp)
    have hz := hdig z (by simp)
    have hx0 : x ≠ '0' := by
      rcases hhead with habs | hh
      · simp at habs
      · simpa using hh
    have ha := dval_lt_ten x
    have hb := dval_lt_ten y
    have hc := dval_lt_ten z
    have hpos := dval_pos hx hx0
    have hv : decToNat [x, y, z] =
        dval x * 100 + dval y * 10 + dval z := by
      simp [decToNat]; ring
    rw [hv]
    unfold natDec
    rw [if_neg (by omega), if_neg (by omega)]
    rw [show (dval x * 100 + dval y * 10 + dval z) / 100 = dval x by omega,
      show (dval x * 100 + dval y * 10 + dval z) / 10 % 10 = dval y by omega,
      show (dval x * 100 + dval y * 10 + dval z) % 10 = dval z by omega,
      digitCh_dval hx, digitCh_dval hy, digitCh_dval hz]
  | x :: y :: z :: w :: t, _ =>
    exact absurd hlen (by simp)

theorem joinSep_cons_cons (sep : Str) (p q : Str) (r : List Str) :
    joinSep sep (p :: q :: r) = p ++ sep ++ joinSep sep (q :: r) := rfl

theorem splitOnCh_joinSep {sep : Char} :
    ∀ {parts : List Str}, parts ≠ [] → (∀ p ∈ parts, sep ∉ p) →
      splitOnCh sep (joinSep [sep] parts) = parts
  | [], h, _ => absurd rfl h
  | [p], _, hm => by
    simpa [joinSep] using splitOnCh_no_sep (hm p (by simp))
  | p :: q :: r, _, hm => by
    rw [joinSep_cons_cons]
    have hp : sep ∉ p := hm p (by simp)
    have : p ++ [sep] ++ joinSep [sep] (q :: r) =
        p ++ sep :: joinSep [sep] (q :: r) := by simp
    rw [this, splitOnCh_append hp,
      splitOnCh_joinSep (List.cons_ne_nil q r)
        (fun x hx => hm x (List.mem_cons_of_mem p hx))]

theorem isHexCh_cases {c : Char} (h : isHexCh c = true) :
    c = '0' ∨ c = '1' ∨ c = '2' ∨ c = '3' ∨ c = '4' ∨ c = '5' ∨ c = '6' ∨
    c = '7' ∨ c = '8' ∨ c = '9' ∨ c = 'a' ∨ c = 'b' ∨ c = 'c' ∨ c = 'd' ∨
    c = 'e' ∨ c = 'f' ∨ c = 'A' ∨ c = 'B' ∨ c = 'C' ∨ c = 'D' ∨ c = 'E' ∨
    c = 'F' := by
  have h2 := h
  unfold isHexCh isDigitCh at h2
  simp only [decide_eq_true_eq] at h2
  tauto

theorem isHexCh_ne_sep {c d : Char} (h : isHexCh c = true)
    (hd : d = ':' ∨ d = '-') : c ≠ d := by
  rcases hd with rfl | rfl <;>
    rcases isHexCh_cases h with rfl | rfl | rfl | rfl | rfl | rfl | rfl |
      rfl | rfl | rfl | rfl | rfl | rfl | rfl | rfl | rfl | rfl | rfl |
      rfl | rfl | rfl | rfl <;> decide

theorem hextetVal_hex4 {n : Nat} (h : n < 65536) : hextetVal (hex4 n) = n := by
  have h3 : n / 4096 < 16 := by omega
  have h2 : n / 256 % 16 < 16 := by omega
  have h1 : n / 16 % 16 < 16 := by omega
  have h0 : n % 16 < 16 := by omega
  simp [hextetVal, hex4, hval_hexCh h3, hval_hexCh h2, hval_hexCh h1,
    hval_hexCh h0]
  omega

theorem validHextetStr_hex4 {n : Nat} (h : n < 65536) :
    validHextetStr (hex4 n) = true := by
  have h3 : n / 4096 < 16 := by omega
  have h2 : n / 256 % 16 < 16 := by omega
  have h1 : n / 16 % 16 < 16 := by omega
  have h0 : n % 16 < 16 := by omega
  simp [validHextetStr, hex4, isHexCh_hexCh h3, isHexCh_hexCh h2,
    isHexCh_hexCh h1, isHexCh_hexCh h0]

theorem hextetVal_lt {p : Str} (h : validHextetStr p = true) :
    hextetVal p < 65536 := by
  unfold validHextetStr at h
  simp only [Bool.and_eq_true, decide_eq_true_eq, List.all_eq_true] at h
  obtain ⟨⟨hne, hlen⟩, hhex⟩ := h
  match p, hne with
  | [a], _ =>
    have := hval_lt_sixteen a
    simp [hextetVal]; omega
  | [a, b], _ =>
    have := hval_lt_sixteen a
    have := hval_lt_sixteen b
    simp [hextetVal]; omega
  | [a, b, c], _ =>
    have := hval_lt_sixteen a
    have := hval_lt_sixteen b
    have := hval_lt_sixteen c
    simp [hextetVal]; omega
  | [a, b, c, d], _ =>
    have := hval_lt_sixteen a
    have := hval_lt_sixteen b
    have := hval_lt_sixteen c
    have := hval_lt_sixteen d
    simp [hextetVal]; omega
  | a :: b :: c :: d :: e :: t, _ => exact absurd hlen (by simp)

theorem colon_not_mem_hex4 {n : Nat} (h : n < 65536) : ':' ∉ hex4 n := by
  have hv := validHextetStr_hex4 h
  unfold validHextetStr at hv
  simp only [Bool.and_eq_true, List.all_eq_true] at hv
  intro hm
  have hhex := hv.2 ':' hm
  exact absurd hhex (by decide)

theorem sep_not_mem_pair {d a b : Char} (hd : d = ':' ∨ d = '-')
    (ha : isHexCh a = true) (hb : isHexCh b = true) : d ∉ ([a, b] : Str) := by
  intro hm
  rcases List.mem_cons.mp hm with h | h
  · exact isHexCh_ne_sep ha hd h.symm
  · rcases List.mem_cons.mp h with h2 | h2
    · exact isHexCh_ne_sep hb hd h2.symm
    · simp at h2

theorem toUpper_sep {d : Char} (hd : d = ':' ∨ d = '-') :
    Char.toUpper d = d := by
  rcases hd with rfl | rfl <;> decide

-- --- Claim C2: MAC replacement shape ---

/-- C2 (amended): for every MAC-shaped input not yet in the store, the MAC
replacement rule produces six two-hex-digit groups joined by the input's
delimiter; the first three groups are the input's first three octets
uppercased (preserved up to letter case, not verbatim), the last three are
independently drawn random byte values in 00–ff rendered as uppercase hex,
and the whole output is uppercase and recorded in the store. -/
theorem mac_replacement_shape
    (d e1 e2 e3 e4 e5 e6 e7 e8 e9 e10 e11 e12 : Char) (st : AState)
    (hd : d = ':' ∨ d = '-')
    (h1 : isHexCh e1 = true) (h2 : isHexCh e2 = true)
    (h3 : isHexCh e3 = true) (h4 : isHexCh e4 = true)
    (h5 : isHexCh e5 = true) (h6 : isHexCh e6 = true)
    (h7 : isHexCh e7 = true) (h8 : isHexCh e8 = true)
    (h9 : isHexCh e9 = true) (h10 : isHexCh e10 = true)
    (h11 : isHexCh e11 = true) (h12 : isHexCh e12 = true)
    (hst : storeFind st.store
      [e1, e2, d, e3, e4, d, e5, e6, d, e7, e8, d, e9, e10, d, e11, e12] =
        none) :
    ∃ u : Str,
      getOrCreateMacReplacement
          [e1, e2, d, e3, e4, d, e5, e6, d, e7, e8, d, e9, e10, d, e11, e12]
          st =
        (u, addStore
          [e1, e2, d, e3, e4, d, e5, e6, d, e7, e8, d, e9, e10, d, e11, e12]
          u { st with i := st.i + 3 }) ∧
      u = [e1.toUpper, e2.toUpper, d, e3.toUpper, e4.toUpper, d,
          e5.toUpper, e6.toUpper, d] ++
        (hex2 (st.g st.i % 256)).map Char.toUpper ++ d ::
          ((hex2 (st.g (st.i + 1) % 256)).map Char.toUpper ++ d ::
            (hex2 (st.g (st.i + 2) % 256)).map Char.toUpper) ∧
      st.g st.i % 256 ≤ 255 ∧ st.g (st.i + 1) % 256 ≤ 255 ∧
      st.g (st.i + 2) % 256 ≤ 255 := by
  have hgetD :
      ([e1, e2, d, e3, e4, d, e5, e6, d, e7, e8, d, e9, e10, d, e11, e12] :
        Str).getD 2 ' ' = d := rfl
  have hsplit : splitOnCh d
      [e1, e2, d, e3, e4, d, e5, e6, d, e7, e8, d, e9, e10, d, e11, e12] =
      [[e1, e2], [e3, e4], [e5, e6], [e7, e8], [e9, e10], [e11, e12]] := by
    have e :
        ([e1, e2, d, e3, e4, d, e5, e6, d, e7, e8, d, e9, e10, d, e11, e12] :
          Str) =
        [e1, e2] ++ d :: ([e3, e4] ++ d :: ([e5, e6] ++ d ::
          ([e7, e8] ++ d :: ([e9, e10] ++ d :: [e11, e12])))) := by simp
    rw [e, splitOnCh_append (sep_not_mem_pair hd h1 h2),
      splitOnCh_append (sep_not_mem_pair hd h3 h4),
      splitOnCh_append (sep_not_mem_pair hd h5 h6),
      splitOnCh_append (sep_not_mem_pair hd h7 h8),
      splitOnCh_append (sep_not_mem_pair hd h9 h10),
      splitOnCh_no_sep (sep_not_mem_pair hd h11 h12)]
  refine ⟨_, ?_, rfl, by omega, by omega, by omega⟩
  simp only [getOrCreateMacReplacement, hst, randint, hgetD, hsplit]
  simp only [List.take, joinSep, List.map_append, List.map_cons,
    List.map_nil, List.append_assoc, List.cons_append, List.nil_append,
    toUpper_sep hd, hex2]
  norm_num

/-- Witness for C2 (amended) at the concrete input `aa:bb:cc:dd:ee:ff`. -/
theorem mac_replacement_shape_witness :
    ((':' : Char) = ':' ∨ (':' : Char) = '-') ∧
    storeFind exSt.store (strL "aa:bb:cc:dd:ee:ff") = none ∧
    ∃ u : Str,
      getOrCreateMacReplacement
          ['a', 'a', ':', 'b', 'b', ':', 'c', 'c', ':', 'd', 'd', ':',
            'e', 'e', ':', 'f', 'f'] exSt =
        (u, addStore
          ['a', 'a', ':', 'b', 'b', ':', 'c', 'c', ':', 'd', 'd', ':',
            'e', 'e', ':', 'f', 'f'] u { exSt with i := exSt.i + 3 }) ∧
      u = ['a'.toUpper, 'a'.toUpper, ':', 'b'.toUpper, 'b'.toUpper, ':',
          'c'.toUpper, 'c'.toUpper, ':'] ++
        (hex2 (exSt.g exSt.i % 256)).map Char.toUpper ++ ':' ::
          ((hex2 (exSt.g (exSt.i + 1) % 256)).map Char.toUpper ++ ':' ::
            (hex2 (exSt.g (exSt.i + 2) % 256)).map Char.toUpper) ∧
      exSt.g exSt.i % 256 ≤ 255 ∧ exSt.g (exSt.i + 1) % 256 ≤ 255 ∧
      exSt.g (exSt.i + 2) % 256 ≤ 255 :=
  ⟨Or.inl rfl, by decide,
    mac_replacement_shape ':' 'a' 'a' 'b' 'b' 'c' 'c' 'd' 'd' 'e' 'e' 'f' 'f'
      exSt (Or.inl rfl) (by decide) (by decide) (by decide) (by decide)
      (by decide) (by decide) (by decide) (by decide) (by decide) (by decide)
      (by decide) (by decide) (by decide)⟩

/-- Counterexample to C2 as stated: for the lowercase MAC-shaped input
`aa:bb:cc:dd:ee:ff` the first three output groups are `AA:BB:CC`, not the
verbatim input octets `aa:bb:cc`, because the code uppercases the whole
joined string. -/
theorem mac_replacement_not_verbatim :
    (getOrCreateMacReplacement (strL "aa:bb:cc:dd:ee:ff") exSt).1 =
      strL "AA:BB:CC:00:00:00" ∧
    (getOrCreateMacReplacement (strL "aa:bb:cc:dd:ee:ff") exSt).1.take 8 ≠
      (strL "aa:bb:cc:dd:ee:ff").take 8 := by
  constructor
  · decide
  · decide

-- --- Claim C8: MAC scanner token shape ---

/-- C8 (amended): every substring claimed by the MAC scanner consists of six
two-hex-digit groups separated by five delimiters, each of which is
independently `:` or `-`; one consistent delimiter throughout the match is
not required, so mixed-delimiter tokens are also claimed. -/
theorem mac_scanner_token_shape (s : Str) (h : macMatches s = true) :
    ∃ q1 q2 q3 q4 q5 q6 : Str, ∃ d1 d2 d3 d4 d5 : Char,
      s = q1 ++ d1 :: q2 ++ d2 :: q3 ++ d3 :: q4 ++ d4 :: q5 ++ d5 :: q6 ∧
      q1.length = 2 ∧ q2.length = 2 ∧ q3.length = 2 ∧ q4.length = 2 ∧
      q5.length = 2 ∧ q6.length = 2 ∧
      q1.all isHexCh = true ∧ q2.all isHexCh = true ∧
      q3.all isHexCh = true ∧ q4.all isHexCh = true ∧
      q5.all isHexCh = true ∧ q6.all isHexCh = true ∧
      (d1 = ':' ∨ d1 = '-') ∧ (d2 = ':' ∨ d2 = '-') ∧
      (d3 = ':' ∨ d3 = '-') ∧ (d4 = ':' ∨ d4 = '-') ∧
      (d5 = ':' ∨ d5 = '-') := by
  rcases s with _ | ⟨a1, _ | ⟨a2, _ | ⟨s1, _ | ⟨b1, _ | ⟨b2, _ | ⟨s2,
    _ | ⟨c1, _ | ⟨c2, _ | ⟨s3, _ | ⟨d1, _ | ⟨d2, _ | ⟨s4, _ | ⟨e1,
    _ | ⟨e2, _ | ⟨s5, _ | ⟨f1, _ | ⟨f2, rest⟩⟩⟩⟩⟩⟩⟩⟩⟩⟩⟩⟩⟩⟩⟩⟩⟩
  all_goals try simp [macMatches] at h
  rcases rest with _ | ⟨x, t⟩
  · simp only [macMatches, Bool.and_eq_true, Bool.or_eq_true,
      decide_eq_true_eq] at h
    refine ⟨[a1, a2], [b1, b2], [c1, c2], [d1, d2], [e1, e2], [f1, f2],
      s1, s2, s3, s4, s5, by simp, rfl, rfl, rfl, rfl, rfl, rfl,
      ?_, ?_, ?_, ?_, ?_, ?_, ?_, ?_, ?_, ?_, ?_⟩ <;> simp_all
  · simp [macMatches] at h

/-- Witness for C8 (amended) at the concrete token `aa-bb-cc-dd-ee-ff`. -/
theorem mac_scanner_token_shape_witness :
    macMatches (strL "aa-bb-cc-dd-ee-ff") = true ∧
    ∃ q1 q2 q3 q4 q5 q6 : Str, ∃ d1 d2 d3 d4 d5 : Char,
      strL "aa-bb-cc-dd-ee-ff" =
        q1 ++ d1 :: q2 ++ d2 :: q3 ++ d3 :: q4 ++ d4 :: q5 ++ d5 :: q6 ∧
      q1.length = 2 ∧ q2.length = 2 ∧ q3.length = 2 ∧ q4.length = 2 ∧
      q5.length = 2 ∧ q6.length = 2 ∧
      q1.all isHexCh = true ∧ q2.all isHexCh = true ∧
      q3.all isHexCh = true ∧ q4.all isHexCh = true ∧
      q5.all isHexCh = true ∧ q6.all isHexCh = true ∧
      (d1 = ':' ∨ d1 = '-') ∧ (d2 = ':' ∨ d2 = '-') ∧
      (d3 = ':' ∨ d3 = '-') ∧ (d4 = ':' ∨ d4 = '-') ∧
      (d5 = ':' ∨ d5 = '-') :=
  ⟨by decide, mac_scanner_token_shape (strL "aa-bb-cc-dd-ee-ff") (by decide)⟩

/-- Counterexample to C8 as stated: the mixed-delimiter token
`aa:bb-cc:dd-ee:ff` is claimed by the MAC pattern (the delimiter at index 2
is `:` while the one at index 5 is `-`) and the MAC scanner rewrites it. -/
theorem mac_scanner_mixed_delims :
    macMatches (strL "aa:bb-cc:dd-ee:ff") = true ∧
    (strL "aa:bb-cc:dd-ee:ff").getD 2 ' ' = ':' ∧
    (strL "aa:bb-cc:dd-ee:ff").getD 5 ' ' = '-' ∧
    (macSubAll (strL "aa:bb-cc:dd-ee:ff") exSt).1 =
      strL "AA:BB-CC:DD-EE:00:00:00" ∧
    (macSubAll (strL "aa:bb-cc:dd-ee:ff") exSt).1 ≠
      strL "aa:bb-cc:dd-ee:ff" := by
  refine ⟨by decide, by decide, by decide, by decide, by decide⟩

-- --- Claim C3: IPv4 substitution rules ---

theorem splitOnCh_ne_nil (sep : Char) (s : Str) : splitOnCh sep s ≠ [] := by
  cases s with
  | nil => simp [splitOnCh]
  | cons c cs =>
    simp only [splitOnCh]
    split
    · simp
    · split <;> simp

theorem joinSep_splitOnCh (sep : Char) (s : Str) :
    joinSep [sep] (splitOnCh sep s) = s := by
  induction s with
  | nil => rfl
  | cons c cs ih =>
    simp only [splitOnCh]
    split
    case isTrue hc =>
      cases hq : splitOnCh sep cs with
      | nil => exact absurd hq (splitOnCh_ne_nil sep cs)
      | cons g gs =>
        rw [hq] at ih
        subst hc
        simp [joinSep, ih]
    case isFalse hc =>
      cases hq : splitOnCh sep cs with
      | nil => exact absurd hq (splitOnCh_ne_nil sep cs)
      | cons g gs =>
        rw [hq] at ih
        cases gs with
        | nil => simpa [joinSep] using ih
        | cons g2 gs2 =>
          simp only [joinSep] at ih ⊢
          simp [← ih]

theorem parseIPv4_parts {s : Str} {a b c d : Nat}
    (hp : parseIPv4 s = some (a, b, c, d)) :
    ∃ p1 p2 p3 p4 : Str,
      splitOnCh '.' s = [p1, p2, p3, p4] ∧
      validOctetStr p1 = true ∧ validOctetStr p2 = true ∧
      validOctetStr p3 = true ∧ validOctetStr p4 = true ∧
      decToNat p1 = a ∧ decToNat p2 = b ∧ decToNat p3 = c ∧
      decToNat p4 = d := by
  unfold parseIPv4 at hp
  rcases hql : splitOnCh '.' s with _ | ⟨p1, _ | ⟨p2, _ | ⟨p3,
    _ | ⟨p4, _ | ⟨p5, t⟩⟩⟩⟩⟩ <;> rw [hql] at hp <;> try simp at hp
  refine ⟨p1, p2, p3, p4, rfl, ?_⟩
  tauto

/-- C3: for every valid IPv4 address matched in a string and not yet
memoized: loopback / unspecified / `255.`-prefixed addresses are returned
unchanged; a `192.168.x.y` address with `1 < y < 255` keeps its textual
prefix and only the last octet is randomized into 2–254, while `y` in
{0, 1, 255} is returned unchanged; every other address becomes
`10.<rand 0-255>.<rand 0-255>.<d>` where `d` keeps the original last octet
when it was 0, 1 or 255 and is random in 2–254 otherwise. -/
theorem ipv4_replacement_cases (s : Str) (a b c d : Nat) (st : AState)
    (hp : parseIPv4 s = some (a, b, c, d))
    (hst : storeFind st.store s = none) :
    ((a = 127 ∨ (a = 0 ∧ b = 0 ∧ c = 0 ∧ d = 0) ∨
        startsWithL s (strL "255.") = true) →
      subIpv4Match s st = (s, st)) ∧
    (¬(a = 127 ∨ (a = 0 ∧ b = 0 ∧ c = 0 ∧ d = 0) ∨
        startsWithL s (strL "255.") = true) →
      (a = 192 ∧ b = 168 →
        ((1 < d ∧ d < 255) →
          ∃ p : Str, s = p ++ '.' :: natDec d ∧
            (subIpv4Match s st).1 =
              p ++ '.' :: natDec (2 + st.g st.i % 253) ∧
            2 ≤ 2 + st.g st.i % 253 ∧ 2 + st.g st.i % 253 ≤ 254) ∧
        ((d = 0 ∨ d = 1 ∨ d = 255) → (subIpv4Match s st).1 = s)) ∧
      (¬(a = 192 ∧ b = 168) →
        (subIpv4Match s st).1 =
          renderIPv4 [10, st.g st.i % 256, st.g (st.i + 1) % 256,
            if d = 0 ∨ d = 1 ∨ d = 255 then d
            else 2 + st.g (st.i + 2) % 253] ∧
        st.g st.i % 256 ≤ 255 ∧ st.g (st.i + 1) % 256 ≤ 255 ∧
        (¬(d = 0 ∨ d = 1 ∨ d = 255) →
          2 ≤ 2 + st.g (st.i + 2) % 253 ∧
          2 + st.g (st.i + 2) % 253 ≤ 254))) := by
  obtain ⟨p1, p2, p3, p4, hq, v1, v2, v3, v4, e1, e2, e3, e4⟩ :=
    parseIPv4_parts hp
  have hoct : (splitOnCh '.' s).map decToNat = [a, b, c, d] := by
    rw [hq]; simp [e1, e2, e3, e4]
  have hs4 : s = p1 ++ '.' :: (p2 ++ '.' :: (p3 ++ '.' :: p4)) := by
    have hj := joinSep_splitOnCh '.' s
    rw [hq] at hj
    simpa [joinSep, strL] using hj.symm
  constructor
  · intro hcond
    simp only [subIpv4Match, hp]
    rw [if_pos hcond]
  · intro hcond
    have hsub : subIpv4Match s st = getOrCreateIpv4Replacement s st := by
      simp only [subIpv4Match, hp]
      rw [if_neg hcond]
    rw [hsub]
    refine ⟨?_, ?_⟩
    · rintro ⟨ha, hb⟩
      constructor
      · rintro ⟨hd1, hd2⟩
        refine ⟨p1 ++ '.' :: (p2 ++ '.' :: p3), ?_, ?_, by omega, by omega⟩
        · rw [← e4, natDec_decToNat v4, hs4]
          simp
        · simp only [getOrCreateIpv4Replacement, hst, hoct]
          rw [if_pos (by simp [List.getD]; omega)]
          rw [if_pos (by simp [List.getD]; omega)]
          simp only [randint, renderIPv4]
          rw [← e1, ← e2, ← e3]
          simp [joinSep, strL, natDec_decToNat v1, natDec_decToNat v2,
            natDec_decToNat v3]
      · intro hd015
        simp only [getOrCreateIpv4Replacement, hst, hoct]
        rw [if_pos (by simp [List.getD]; omega)]
        rw [if_neg (by simp [List.getD]; omega)]
    · intro hnot192
      have hcond2 : ¬((([a, b, c, d] : List Nat).getD 0 0 = 192) ∧
          (([a, b, c, d] : List Nat).getD 1 0 = 168)) := by
        simpa [List.getD] using hnot192
      refine ⟨?_, by omega, by omega, by omega⟩
      simp only [getOrCreateIpv4Replacement, hst, hoct]
      rw [if_neg hcond2]
      by_cases hdd : d = 0 ∨ d = 1 ∨ d = 255
      · rw [if_pos hdd]
        rw [if_pos (by simpa [List.getD] using hdd)]
        simp [randint, List.getD]
      · rw [if_neg hdd]
        rw [if_neg (by simpa [List.getD] using hdd)]
        simp [randint, List.getD]

/-- Witness for C3 at the concrete address `8.8.8.8`. -/
theorem ipv4_replacement_cases_witness :
    parseIPv4 (strL "8.8.8.8") = some (8, 8, 8, 8) ∧
    storeFind exSt.store (strL "8.8.8.8") = none ∧
    ((((8 : Nat) = 127 ∨ ((8 : Nat) = 0 ∧ (8 : Nat) = 0 ∧ (8 : Nat) = 0 ∧
          (8 : Nat) = 0) ∨
        startsWithL (strL "8.8.8.8") (strL "255.") = true) →
      subIpv4Match (strL "8.8.8.8") exSt = (strL "8.8.8.8", exSt)) ∧
    (¬((8 : Nat) = 127 ∨ ((8 : Nat) = 0 ∧ (8 : Nat) = 0 ∧ (8 : Nat) = 0 ∧
          (8 : Nat) = 0) ∨
        startsWithL (strL "8.8.8.8") (strL "255.") = true) →
      ((8 : Nat) = 192 ∧ (8 : Nat) = 168 →
        ((1 < (8 : Nat) ∧ (8 : Nat) < 255) →
          ∃ p : Str, strL "8.8.8.8" = p ++ '.' :: natDec 8 ∧
            (subIpv4Match (strL "8.8.8.8") exSt).1 =
              p ++ '.' :: natDec (2 + exSt.g exSt.i % 253) ∧
            2 ≤ 2 + exSt.g exSt.i % 253 ∧ 2 + exSt.g exSt.i % 253 ≤ 254) ∧
        (((8 : Nat) = 0 ∨ (8 : Nat) = 1 ∨ (8 : Nat) = 255) →
          (subIpv4Match (strL "8.8.8.8") exSt).1 = strL "8.8.8.8")) ∧
      (¬((8 : Nat) = 192 ∧ (8 : Nat) = 168) →
        (subIpv4Match (strL "8.8.8.8") exSt).1 =
          renderIPv4 [10, exSt.g exSt.i % 256, exSt.g (exSt.i + 1) % 256,
            if (8 : Nat) = 0 ∨ (8 : Nat) = 1 ∨ (8 : Nat) = 255 then 8
            else 2 + exSt.g (exSt.i + 2) % 253] ∧
        exSt.g exSt.i % 256 ≤ 255 ∧ exSt.g (exSt.i + 1) % 256 ≤ 255 ∧
        (¬((8 : Nat) = 0 ∨ (8 : Nat) = 1 ∨ (8 : Nat) = 255) →
          2 ≤ 2 + exSt.g (exSt.i + 2) % 253 ∧
          2 + exSt.g (exSt.i + 2) % 253 ≤ 254)))) :=
  ⟨by decide, by decide,
    ipv4_replacement_cases (strL "8.8.8.8") 8 8 8 8 exSt (by decide)
      (by decide)⟩

-- --- Claim C4: IPv6 replacement shape ---

/-- Pointwise description of the group-transformation loop: a group
rendering to `0000`/`0001` is preserved; the group at tail position `j`
otherwise becomes `hex4` of the stream draw `st.g (st.i + drawsBefore ps j)`
reduced modulo 65536 — each randomized group consumes its own fresh stream
cell, in order. -/
theorem transformTail_spec (ps : List Str) (st : AState) :
    ∃ qs : List Str, ∃ st2 : AState, transformTail ps st = (qs, st2) ∧
      qs.length = ps.length ∧
      ∀ j, j < ps.length →
        ((ps.getD j [] = strL "0000" ∨ ps.getD j [] = strL "0001") →
          qs.getD j [] = ps.getD j []) ∧
        (¬(ps.getD j [] = strL "0000" ∨ ps.getD j [] = strL "0001") →
          qs.getD j [] = hex4 (st.g (st.i + drawsBefore ps j) % 65536)) := by
  induction ps generalizing st with
  | nil => exact ⟨[], st, rfl, rfl, fun j hj => absurd hj (by simp)⟩
  | cons p ps ih =>
    by_cases hp : p = strL "0000" ∨ p = strL "0001"
    · obtain ⟨qs, st2, heq, hlen, hind⟩ := ih st
      refine ⟨p :: qs, st2, by simp [transformTail, if_pos hp, heq],
        by simp [hlen], ?_⟩
      intro j hj
      cases j with
      | zero =>
        refine ⟨fun _ => rfl, fun hn => absurd ?_ hn⟩
        simpa using hp
      | succ j =>
        have ht := hind j (by simpa using hj)
        refine ⟨?_, ?_⟩
        · intro hpr
          simp only [List.getD_cons_succ] at hpr ⊢
          exact ht.1 hpr
        · intro hnr
          simp only [List.getD_cons_succ] at hnr ⊢
          rw [ht.2 hnr]
          have hd : drawsBefore (p :: ps) (j + 1) = drawsBefore ps j := by
            simp [drawsBefore, if_pos hp]
          rw [hd]
    · obtain ⟨qs, st2, heq, hlen, hind⟩ := ih { st with i := st.i + 1 }
      refine ⟨hex4 (0 + st.g st.i % 65536) :: qs, st2,
        by simp [transformTail, if_neg hp, randint, heq],
        by simp [hlen], ?_⟩
      intro j hj
      cases j with
      | zero =>
        refine ⟨fun hpr => absurd ?_ hp, fun _ => ?_⟩
        · simpa using hpr
        · simp [drawsBefore]
      | succ j =>
        have ht := hind j (by simpa using hj)
        refine ⟨?_, ?_⟩
        · intro hpr
          simp only [List.getD_cons_succ] at hpr ⊢
          exact ht.1 hpr
        · intro hnr
          simp only [List.getD_cons_succ] at hnr ⊢
          rw [ht.2 hnr]
          have hd : drawsBefore (p :: ps) (j + 1) =
              1 + drawsBefore ps j := by
            simp [drawsBefore, if_neg hp]
          rw [hd]
          have ha : st.i + 1 + drawsBefore ps j =
              st.i + (1 + drawsBefore ps j) := by omega
          rw [ha]

/-- Groups rendering to `0000`/`0001` are exactly the values 0 and 1. -/
theorem hex4_zero_one {x : Nat} (h : x < 65536) :
    (hex4 x = strL "0000" ∨ hex4 x = strL "0001") ↔ (x = 0 ∨ x = 1) := by
  constructor
  · rintro (h0 | h1)
    · left
      have := hextetVal_hex4 h
      rw [h0] at this
      simpa [hextetVal, strL, hval] using this.symm
    · right
      have := hextetVal_hex4 h
      rw [h1] at this
      simpa [hextetVal, strL, hval] using this.symm
  · rintro (rfl | rfl)
    · left; decide
    · right; decide

theorem parseIPv6_parts {s : Str} {hs : List Nat}
    (hp : parseIPv6 s = some hs) :
    (splitOnCh ':' s).length = 8 ∧
      (∀ p ∈ splitOnCh ':' s, validHextetStr p = true) ∧
      hs = (splitOnCh ':' s).map hextetVal := by
  unfold parseIPv6 at hp
  have hp2 : (if (decide ((splitOnCh ':' s).length = 8) &&
      (splitOnCh ':' s).all validHextetStr) = true then
      some (List.map hextetVal (splitOnCh ':' s)) else none) = some hs := hp
  clear hp
  rename' hp2 => hp
  split at hp
  case isTrue h =>
    simp only [Bool.and_eq_true, decide_eq_true_eq, List.all_eq_true] at h
    simp only [Option.some.injEq] at hp
    exact ⟨h.1, h.2, hp.symm⟩
  case isFalse => simp at hp

/-- A transformed group is the kept original or a rendered modular draw. -/
theorem elem_cases {x d : Nat} {q : Str}
    (hk : (hex4 x = strL "0000" ∨ hex4 x = strL "0001") → q = hex4 x)
    (hr : ¬(hex4 x = strL "0000" ∨ hex4 x = strL "0001") →
      q = hex4 (d % 65536)) :
    q = hex4 x ∨ ∃ r : Nat, r < 65536 ∧ q = hex4 r := by
  by_cases hc : hex4 x = strL "0000" ∨ hex4 x = strL "0001"
  · exact Or.inl (hk hc)
  · exact Or.inr ⟨d % 65536, by omega, hr hc⟩

/-- Value-level reading of one transformed group: values 0/1 preserved,
every other value replaced by the named modular stream draw. -/
theorem group_val_spec2 {h1 d : Nat} {q : Str} (hw : h1 < 65536)
    (hk : (hex4 h1 = strL "0000" ∨ hex4 h1 = strL "0001") → q = hex4 h1)
    (hr : ¬(hex4 h1 = strL "0000" ∨ hex4 h1 = strL "0001") →
      q = hex4 (d % 65536)) :
    ((h1 = 0 ∨ h1 = 1) → hextetVal q = h1) ∧
    (¬(h1 = 0 ∨ h1 = 1) → hextetVal q = d % 65536) ∧
    hextetVal q < 65536 := by
  by_cases hc : h1 = 0 ∨ h1 = 1
  · have hq := hk ((hex4_zero_one hw).mpr hc)
    exact ⟨fun _ => by rw [hq, hextetVal_hex4 hw],
      fun hn => absurd hc hn,
      by rw [hq, hextetVal_hex4 hw]; exact hw⟩
  · have hq := hr fun hx => hc ((hex4_zero_one hw).mp hx)
    have hd : d % 65536 < 65536 := by omega
    exact ⟨fun hx => absurd hx hc,
      fun _ => by rw [hq, hextetVal_hex4 hd],
      by rw [hq, hextetVal_hex4 hd]; exact hd⟩

theorem transformTail_store (ps : List Str) (st : AState) :
    (transformTail ps st).2.store = st.store := by
  induction ps generalizing st with
  | nil => rfl
  | cons p ps ih =>
    simp only [transformTail]
    split
    · exact ih st
    · simp only [randint]
      exact ih { st with i := st.i + 1 }

/-- Full description of `get_or_create_ipv6_replacement` on a fresh valid
address: the replacement value, the store write, and the per-group
properties — preserved groups keep their value and each randomized group
at position `j` is the named stream draw
`st.g (st.i + drawsBefore tail (j-1)) % 65536`, a fresh cell per group
(shared by the C1 and C4 developments). -/
theorem ipv6_getOrCreate_full (s : Str) (hs : List Nat) (st : AState)
    (hp : parseIPv6 s = some hs)
    (hst : storeFind st.store s = none) :
    ∃ vs : List Nat, ∃ st2 : AState,
      getOrCreateIpv6Replacement s st =
        (renderIPv6 vs, addStore s (renderIPv6 vs) st2) ∧
      st2.store = st.store ∧
      vs.length = 8 ∧
      vs.getD 0 0 = hs.getD 0 0 ∧
      ∀ j, 1 ≤ j → j ≤ 7 →
        ((hs.getD j 0 = 0 ∨ hs.getD j 0 = 1) → vs.getD j 0 = hs.getD j 0) ∧
        (¬(hs.getD j 0 = 0 ∨ hs.getD j 0 = 1) →
          vs.getD j 0 =
            st.g (st.i + drawsBefore ((hs.map hex4).drop 1) (j - 1)) %
              65536) ∧
        vs.getD j 0 < 65536 := by
  obtain ⟨hlen, hvalid, hmap⟩ := parseIPv6_parts hp
  generalize hql : splitOnCh ':' s = parts at hlen hvalid hmap
  rcases parts with _ | ⟨p0, _ | ⟨p1, _ | ⟨p2, _ | ⟨p3, _ | ⟨p4, _ | ⟨p5,
    _ | ⟨p6, _ | ⟨p7, rest⟩⟩⟩⟩⟩⟩⟩⟩
  all_goals try simp at hlen
  subst hlen
  subst hmap
  have w0 := hextetVal_lt (hvalid p0 (by simp))
  have w1 := hextetVal_lt (hvalid p1 (by simp))
  have w2 := hextetVal_lt (hvalid p2 (by simp))
  have w3 := hextetVal_lt (hvalid p3 (by simp))
  have w4 := hextetVal_lt (hvalid p4 (by simp))
  have w5 := hextetVal_lt (hvalid p5 (by simp))
  have w6 := hextetVal_lt (hvalid p6 (by simp))
  have w7 := hextetVal_lt (hvalid p7 (by simp))
  obtain ⟨qs, st', heq, hlenq, hind⟩ := transformTail_spec
    [hex4 (hextetVal p1), hex4 (hextetVal p2), hex4 (hextetVal p3),
     hex4 (hextetVal p4), hex4 (hextetVal p5), hex4 (hextetVal p6),
     hex4 (hextetVal p7)] st
  rcases qs with _ | ⟨q1, _ | ⟨q2, _ | ⟨q3, _ | ⟨q4, _ | ⟨q5, _ | ⟨q6,
    _ | ⟨q7, qrest⟩⟩⟩⟩⟩⟩⟩
  all_goals try simp at hlenq
  subst hlenq
  have t0 := hind 0 (by simp)
  have t1 := hind 1 (by simp)
  have t2 := hind 2 (by simp)
  have t3 := hind 3 (by simp)
  have t4 := hind 4 (by simp)
  have t5 := hind 5 (by simp)
  have t6 := hind 6 (by simp)
  simp only [List.getD_cons_zero,
    List.getD_cons_succ] at t0 t1 t2 t3 t4 t5 t6
  have ho1 := elem_cases t0.1 t0.2
  have ho2 := elem_cases t1.1 t1.2
  have ho3 := elem_cases t2.1 t2.2
  have ho4 := elem_cases t3.1 t3.2
  have ho5 := elem_cases t4.1 t4.2
  have ho6 := elem_cases t5.1 t5.2
  have ho7 := elem_cases t6.1 t6.2
  have colfree : ∀ {q : Str} {h1 : Nat}, h1 < 65536 →
      (q = hex4 h1 ∨ ∃ r : Nat, r < 65536 ∧ q = hex4 r) → ':' ∉ q := by
    rintro q h1 hw (rfl | ⟨r, hr, rfl⟩)
    · exact colon_not_mem_hex4 hw
    · exact colon_not_mem_hex4 hr
  have hvq : ∀ {q : Str} {h1 : Nat}, h1 < 65536 →
      (q = hex4 h1 ∨ ∃ r : Nat, r < 65536 ∧ q = hex4 r) →
      validHextetStr q = true := by
    rintro q h1 hw (rfl | ⟨r, hr, rfl⟩)
    · exact validHextetStr_hex4 hw
    · exact validHextetStr_hex4 hr
  have hsplit2 : splitOnCh ':' (joinSep [':']
      [hex4 (hextetVal p0), q1, q2, q3, q4, q5, q6, q7]) =
      [hex4 (hextetVal p0), q1, q2, q3, q4, q5, q6, q7] := by
    refine splitOnCh_joinSep (by simp) ?_
    intro p hb
    simp only [List.mem_cons, List.not_mem_nil, or_false] at hb
    rcases hb with rfl | rfl | rfl | rfl | rfl | rfl | rfl | rfl
    · exact colon_not_mem_hex4 w0
    · exact colfree w1 ho1
    · exact colfree w2 ho2
    · exact colfree w3 ho3
    · exact colfree w4 ho4
    · exact colfree w5 ho5
    · exact colfree w6 ho6
    · exact colfree w7 ho7
  have hinner : parseIPv6 (joinSep (strL ":")
      [hex4 (hextetVal p0), q1, q2, q3, q4, q5, q6, q7]) =
      some (List.map hextetVal
        [hex4 (hextetVal p0), q1, q2, q3, q4, q5, q6, q7]) := by
    unfold parseIPv6
    rw [show strL ":" = [':'] from rfl, hsplit2]
    rw [if_pos]
    simp only [Bool.and_eq_true, decide_eq_true_eq, List.all_eq_true]
    constructor
    · simp
    · intro p hb
      simp only [List.mem_cons, List.not_mem_nil, or_false] at hb
      rcases hb with rfl | rfl | rfl | rfl | rfl | rfl | rfl | rfl
      · exact validHextetStr_hex4 w0
      · exact hvq w1 ho1
      · exact hvq w2 ho2
      · exact hvq w3 ho3
      · exact hvq w4 ho4
      · exact hvq w5 ho5
      · exact hvq w6 ho6
      · exact hvq w7 ho7
  refine ⟨[hextetVal (hex4 (hextetVal p0)), hextetVal q1, hextetVal q2,
    hextetVal q3, hextetVal q4, hextetVal q5, hextetVal q6, hextetVal q7],
    st', ?_, ?_, by simp, ?_, ?_⟩
  · simp only [getOrCreateIpv6Replacement, hst, hp, List.map_cons,
      List.map_nil, List.drop, List.take, heq, List.singleton_append]
    rw [hinner]
    simp
  · have hts := transformTail_store
      [hex4 (hextetVal p1), hex4 (hextetVal p2), hex4 (hextetVal p3),
       hex4 (hextetVal p4), hex4 (hextetVal p5), hex4 (hextetVal p6),
       hex4 (hextetVal p7)] st
    rw [heq] at hts
    exact hts
  · simp [hextetVal_hex4 w0]
  · intro j hj1 hj7
    interval_cases j
    · simpa using group_val_spec2 w1 t0.1 t0.2
    · simpa using group_val_spec2 w2 t1.1 t1.2
    · simpa using group_val_spec2 w3 t2.1 t2.2
    · simpa using group_val_spec2 w4 t3.1 t3.2
    · simpa using group_val_spec2 w5 t4.1 t4.2
    · simpa using group_val_spec2 w6 t5.1 t5.2
    · simpa using group_val_spec2 w7 t6.1 t6.2

/-- C4: for every valid IPv6 address matched in a string and not yet
memoized, the replacement renders (in standard, possibly compressed, form)
an eight-group value whose first group equals the first group of the
expanded input, whose `0000`/`0001` groups are preserved, and whose every
other group at position `j` is replaced by the independently drawn random
four-hex-digit value `st.g (st.i + drawsBefore tail (j-1)) % 65536` — a
distinct fresh stream cell for each randomized group, consumed in order. -/
theorem ipv6_replacement_shape (s : Str) (hs : List Nat) (st : AState)
    (hp : parseIPv6 s = some hs)
    (hst : storeFind st.store s = none) :
    ∃ vs : List Nat,
      (getOrCreateIpv6Replacement s st).1 = renderIPv6 vs ∧
      vs.length = 8 ∧
      vs.getD 0 0 = hs.getD 0 0 ∧
      ∀ j, 1 ≤ j → j ≤ 7 →
        ((hs.getD j 0 = 0 ∨ hs.getD j 0 = 1) → vs.getD j 0 = hs.getD j 0) ∧
        (¬(hs.getD j 0 = 0 ∨ hs.getD j 0 = 1) →
          vs.getD j 0 =
            st.g (st.i + drawsBefore ((hs.map hex4).drop 1) (j - 1)) %
              65536) ∧
        vs.getD j 0 < 65536 := by
  obtain ⟨vs, st2, heq, _, hlen, hhead, hall⟩ :=
    ipv6_getOrCreate_full s hs st hp hst
  exact ⟨vs, by rw [heq], hlen, hhead, hall⟩

/-- Witness for C4 at the concrete address
`2001:0db8:0000:0001:0000:0000:0000:0001`. -/
theorem ipv6_replacement_shape_witness :
    parseIPv6 (strL "2001:0db8:0000:0001:0000:0000:0000:0001") =
      some [8193, 3512, 0, 1, 0, 0, 0, 1] ∧
    storeFind exSt.store
      (strL "2001:0db8:0000:0001:0000:0000:0000:0001") = none ∧
    ∃ vs : List Nat,
      (getOrCreateIpv6Replacement
        (strL "2001:0db8:0000:0001:0000:0000:0000:0001") exSt).1 =
        renderIPv6 vs ∧
      vs.length = 8 ∧
      vs.getD 0 0 = ([8193, 3512, 0, 1, 0, 0, 0, 1] : List Nat).getD 0 0 ∧
      ∀ j, 1 ≤ j → j ≤ 7 →
        ((([8193, 3512, 0, 1, 0, 0, 0, 1] : List Nat).getD j 0 = 0 ∨
            ([8193, 3512, 0, 1, 0, 0, 0, 1] : List Nat).getD j 0 = 1) →
          vs.getD j 0 =
            ([8193, 3512, 0, 1, 0, 0, 0, 1] : List Nat).getD j 0) ∧
        (¬(([8193, 3512, 0, 1, 0, 0, 0, 1] : List Nat).getD j 0 = 0 ∨
            ([8193, 3512, 0, 1, 0, 0, 0, 1] : List Nat).getD j 0 = 1) →
          vs.getD j 0 =
            exSt.g (exSt.i + drawsBefore
              ((([8193, 3512, 0, 1, 0, 0, 0, 1] : List Nat).map hex4).drop
                1) (j - 1)) % 65536) ∧
        vs.getD j 0 < 65536 :=
  ⟨by decide, rfl,
    ipv6_replacement_shape (strL "2001:0db8:0000:0001:0000:0000:0000:0001")
      [8193, 3512, 0, 1, 0, 0, 0, 1] exSt (by decide) rfl⟩

-- --- Claims C5–C7: value policy and document walker ---

theorem drawN_state (n : Nat) (st : AState) :
    (drawN n st).2.store = st.store ∧ (drawN n st).2.g = st.g := by
  induction n generalizing st with
  | zero => exact ⟨rfl, rfl⟩
  | succ n ih =>
    simp only [drawN]
    exact ih { st with i := st.i + 1 }

theorem drawN_length (n : Nat) (st : AState) : (drawN n st).1.length = n := by
  induction n generalizing st with
  | zero => rfl
  | succ n ih =>
    simp only [drawN, List.length_cons]
    rw [ih { st with i := st.i + 1 }]

theorem drawN_mem (n : Nat) (st : AState) :
    ∀ c ∈ (drawN n st).1, c ∈ alnumChars := by
  induction n generalizing st with
  | zero => intro c hc; simp [drawN] at hc
  | succ n ih =>
    intro c hc
    simp only [drawN, List.mem_cons] at hc
    rcases hc with rfl | hc
    · have hlt : st.g st.i % alnumChars.length < alnumChars.length := by
        have h62 : alnumChars.length = 62 := by decide
        rw [h62]
        omega
      rw [List.getD_eq_getElem _ _ hlt]
      exact List.getElem_mem _
    · exact ih { st with i := st.i + 1 } c hc

/-- C5 (amended): the fake serial is a single per-run value of shape two
letters (`JW`) followed by twelve digits; a string field with non-empty
value is replaced by it exactly when its key lowercases to
`serial_number` (the comparison is case-insensitive, not literal); an
empty string under that key stays empty; for every other key the result
does not depend on the fake serial at all. -/
theorem serial_number_policy :
    (∀ g : Nat → Nat, (fakeSerialNumber g).length = 14 ∧
      (fakeSerialNumber g).take 2 = strL "JW" ∧
      ∀ c ∈ (fakeSerialNumber g).drop 2, isDigitCh c = true) ∧
    (∀ (serial key v : Str) (st : AState), v ≠ [] →
      key.map Char.toLower = strL "serial_number" →
      anonymizeValue serial key (JVal.str v) st = (JVal.str serial, st)) ∧
    (∀ (serial key : Str) (st : AState),
      anonymizeValue serial key (JVal.str []) st = (JVal.str [], st)) ∧
    (∀ (s1 s2 key : Str) (v : JVal) (st : AState),
      key.map Char.toLower ≠ strL "serial_number" →
      anonymizeValue s1 key v st = anonymizeValue s2 key v st) := by
  refine ⟨?_, ?_, ?_, ?_⟩
  · intro g
    refine ⟨by simp [fakeSerialNumber], rfl, ?_⟩
    intro c hc
    simp only [fakeSerialNumber, List.drop, List.mem_map,
      List.mem_range] at hc
    obtain ⟨j, _, rfl⟩ := hc
    exact digitCh_lt (Nat.mod_lt _ (by omega))
  · intro serial key v st hv hkey
    have hc1 : containsSub (strL "serial_number") (strL "version") = false :=
      rfl
    have hc2 : containsSub (strL "serial_number")
        (strL "ssid_reference") = false := rfl
    have hc3 : containsSub (strL "serial_number") (strL "prefix") = false :=
      rfl
    simp [anonymizeValue, hv, hkey, hc1, hc2, hc3]
  · intro serial key st
    simp [anonymizeValue]
  · intro s1 s2 key v st hkl
    cases v <;> try rfl
    case str s =>
    simp only [anonymizeValue]
    split_ifs <;> rfl

/-- Witness for C5 (amended) at concrete inputs. -/
theorem serial_number_policy_witness :
    (strL "serial" ≠ ([] : Str)) ∧
    ((strL "Serial_Number").map Char.toLower = strL "serial_number") ∧
    anonymizeValue (strL "JW000000000000") (strL "Serial_Number")
      (JVal.str (strL "serial")) exSt =
      (JVal.str (strL "JW000000000000"), exSt) :=
  ⟨by decide, by decide,
    serial_number_policy.2.1 (strL "JW000000000000") (strL "Serial_Number")
      (strL "serial") exSt (by decide) (by decide)⟩

/-- Counterexample to C5 as stated: a `serial_number` field whose original
value is the empty string is returned unchanged, not replaced by the fake
serial, so the replacement does not happen "regardless of the field's
original value". -/
theorem serial_number_empty_not_replaced :
    (anonymizeValue (strL "JW000000000000") (strL "serial_number")
      (JVal.str []) exSt).1 = JVal.str [] ∧
    strL "JW000000000000" ≠ ([] : Str) :=
  ⟨rfl, by decide⟩

/-- C6 (amended): for a non-empty string value whose key contains
`password` or `passphrase` and is not excluded by an earlier rule (the key
contains neither `version` nor `ssid_reference`, and not both `prefix` in
the key and `:` in the value), the policy returns twelve freshly drawn
characters from the alphanumeric alphabet and leaves the replacement store
unchanged. -/
theorem password_policy (serial key v : Str) (st : AState)
    (hv : v ≠ [])
    (hpw : containsSub (key.map Char.toLower) (strL "password") = true ∨
      containsSub (key.map Char.toLower) (strL "passphrase") = true)
    (hver : containsSub (key.map Char.toLower) (strL "version") = false)
    (hsr : containsSub (key.map Char.toLower)
      (strL "ssid_reference") = false)
    (hpre : ¬(containsSub (key.map Char.toLower) (strL "prefix") = true ∧
      v.contains ':' = true)) :
    anonymizeValue serial key (JVal.str v) st =
      (JVal.str (drawN 12 st).1, (drawN 12 st).2) ∧
    (drawN 12 st).2.store = st.store ∧
    (drawN 12 st).1.length = 12 ∧
    ∀ c ∈ (drawN 12 st).1, c ∈ alnumChars := by
  have hser : key.map Char.toLower ≠ strL "serial_number" := by
    intro hk
    rw [hk] at hpw
    rcases hpw with h | h <;> exact absurd h (by decide)
  have hvempty : v.isEmpty = false := by
    cases v
    · exact absurd rfl hv
    · rfl
  refine ⟨?_, (drawN_state 12 st).1, drawN_length 12 st, drawN_mem 12 st⟩
  simp only [anonymizeValue]
  rw [if_neg hv]
  rw [if_neg (by simp [hver, hsr])]
  rw [if_neg (by
    simp only [Bool.and_eq_true]
    exact fun hh => hpre ⟨hh.1, hh.2⟩)]
  rw [if_neg hser]
  rw [if_pos (by
    simp only [Bool.and_eq_true, Bool.or_eq_true, Bool.not_eq_true',
      hvempty]
    exact ⟨hpw, trivial⟩)]

/-- Witness for C6 (amended) at concrete inputs. -/
theorem password_policy_witness :
    (strL "hunter2" ≠ ([] : Str)) ∧
    (containsSub ((strL "wifi_password").map Char.toLower)
        (strL "password") = true ∨
      containsSub ((strL "wifi_password").map Char.toLower)
        (strL "passphrase") = true) ∧
    anonymizeValue (strL "JW000000000000") (strL "wifi_password")
      (JVal.str (strL "hunter2")) exSt =
      (JVal.str (drawN 12 exSt).1, (drawN 12 exSt).2) ∧
    (drawN 12 exSt).2.store = exSt.store ∧
    (drawN 12 exSt).1.length = 12 ∧
    ∀ c ∈ (drawN 12 exSt).1, c ∈ alnumChars :=
  ⟨by decide, Or.inl (by decide),
    password_policy (strL "JW000000000000") (strL "wifi_password")
      (strL "hunter2") exSt (by decide) (Or.inl (by decide)) (by decide)
      (by decide) (by decide)⟩

/-- Counterexample to C6 as stated: the key `version_password` contains
`password`, yet its non-empty value is returned unchanged (the
`version` exclusion fires first), not replaced by a fresh 12-character
string. -/
theorem password_excluded_key_unchanged :
    anonymizeValue (strL "JW000000000000") (strL "version_password")
      (JVal.str (strL "secret1")) exSt = (JVal.str (strL "secret1"), exSt) ∧
    containsSub ((strL "version_password").map Char.toLower)
      (strL "password") = true ∧
    (strL "secret1").length ≠ 12 :=
  ⟨rfl, rfl, by decide⟩

theorem anonymizeData_scalar (serial : Str) (v : JVal) (st : AState)
    (h : isScalar v = true) : anonymizeData serial v st = (v, st) := by
  cases v <;> first | rfl | simp [isScalar] at h

theorem anonymizeList_scalars (serial : Str) (xs : List JVal) (st : AState)
    (h : ∀ x ∈ xs, isScalar x = true) :
    anonymizeList serial xs st = (xs, st) := by
  induction xs generalizing st with
  | nil => rfl
  | cons v xs ih =>
    simp only [anonymizeList]
    rw [anonymizeData_scalar serial v st (h v (by simp))]
    rw [ih st (fun x hx => h x (by simp [hx]))]

/-- C7 (amended): the Document Walker returns every scalar node that is
not a value of an object unchanged — it does not delegate such nodes to
the Value Policy, so embedded MAC/IPv4/IPv6 substrings in root-level or
array-element strings are not scanned or rewritten. -/
theorem walker_scalar_passthrough :
    (∀ (serial : Str) (v : JVal) (st : AState), isScalar v = true →
      anonymizeData serial v st = (v, st)) ∧
    (∀ (serial : Str) (xs : List JVal) (st : AState),
      (∀ x ∈ xs, isScalar x = true) →
      anonymizeData serial (JVal.arr xs) st = (JVal.arr xs, st)) := by
  constructor
  · exact anonymizeData_scalar
  · intro serial xs st h
    simp only [anonymizeData]
    rw [anonymizeList_scalars serial xs st h]

/-- Witness for C7 (amended): a MAC-bearing string that is a direct array
element passes through the walker unchanged. -/
theorem walker_scalar_passthrough_witness :
    isScalar (JVal.str (strL "aa:bb:cc:dd:ee:ff")) = true ∧
    anonymizeData (strL "JW000000000000")
      (JVal.str (strL "aa:bb:cc:dd:ee:ff")) exSt =
      (JVal.str (strL "aa:bb:cc:dd:ee:ff"), exSt) :=
  ⟨rfl, walker_scalar_passthrough.1 (strL "JW000000000000")
    (JVal.str (strL "aa:bb:cc:dd:ee:ff")) exSt rfl⟩

/-- Counterexample to C7 as stated: the walker returns an array whose only
element is a MAC-bearing string unchanged, while the Value Policy applied
to that same string (with empty key context) rewrites it — so the walker
does not delegate bare scalars to the Value Policy. -/
theorem walker_array_mac_not_rewritten :
    anonymizeData (strL "JW000000000000")
      (JVal.arr [JVal.str (strL "aa:bb:cc:dd:ee:ff")]) exSt =
      (JVal.arr [JVal.str (strL "aa:bb:cc:dd:ee:ff")], exSt) ∧
    jstr (anonymizeValue (strL "JW000000000000") []
      (JVal.str (strL "aa:bb:cc:dd:ee:ff")) exSt).1 =
      strL "AA:BB:CC:00:00:00" ∧
    jstr (anonymizeValue (strL "JW000000000000") []
      (JVal.str (strL "aa:bb:cc:dd:ee:ff")) exSt).1 ≠
      strL "aa:bb:cc:dd:ee:ff" :=
  ⟨rfl, by decide, by decide⟩

-- --- Claim C1: run-scoped replacement consistency ---

theorem storeFind_cons_pres {store : List (Str × Str)} {w r k : Str}
    (v : Str) (h : storeFind store w = some r)
    (hk : storeFind store k = none) :
    storeFind ((k, v) :: store) w = some r := by
  have hne : k ≠ w := by
    intro he
    subst he
    rw [h] at hk
    cases hk
  simpa [storeFind, hne] using h

/-- No rule application ever removes or overwrites an existing store
binding. -/
theorem applyROp_mono (op : ROp) (st : AState) {w r : Str}
    (h : storeFind st.store w = some r) :
    storeFind (applyROp op st).2.store w = some r := by
  cases op with
  | mac s =>
    cases hfind : storeFind st.store s with
    | some x => simpa [applyROp, getOrCreateMacReplacement, hfind] using h
    | none =>
      simp only [applyROp, getOrCreateMacReplacement, hfind, randint,
        addStore]
      exact storeFind_cons_pres _ h hfind
  | ip4 s =>
    cases hfind : storeFind st.store s with
    | some x => simpa [applyROp, getOrCreateIpv4Replacement, hfind] using h
    | none =>
      simp only [applyROp, getOrCreateIpv4Replacement, hfind, randint,
        addStore]
      split_ifs <;> exact storeFind_cons_pres _ h hfind
  | ip6 s =>
    cases hfind : storeFind st.store s with
    | some x => simpa [applyROp, getOrCreateIpv6Replacement, hfind] using h
    | none =>
      cases hp : parseIPv6 s with
      | none => simpa [applyROp, getOrCreateIpv6Replacement, hfind, hp]
          using h
      | some hs =>
        obtain ⟨vs, st2, heq, hstore, _⟩ :=
          ipv6_getOrCreate_full s hs st hp hfind
        simp only [applyROp, heq, addStore]
        refine storeFind_cons_pres _ ?_ ?_ <;> rw [hstore]
        · exact h
        · exact hfind
  | ssid s =>
    cases hfind : storeFind st.store s with
    | some x => simpa [applyROp, getOrCreateSsidReplacement, hfind] using h
    | none =>
      simp only [applyROp, getOrCreateSsidReplacement, hfind, randChoice,
        addStore]
      exact storeFind_cons_pres _ h hfind

theorem runROps_mono (ops : List ROp) (st : AState) {w r : Str}
    (h : storeFind st.store w = some r) :
    storeFind (runROps ops st).store w = some r := by
  induction ops generalizing st with
  | nil => exact h
  | cons op ops ih => exact ih _ (applyROp_mono op st h)

/-- After a valid rule application the processed value is bound in the
store to the produced replacement. -/
theorem applyROp_stores (op : ROp) (st : AState) (hv : opValid op = true) :
    storeFind (applyROp op st).2.store op.value =
      some (applyROp op st).1 := by
  cases op with
  | mac s =>
    cases hfind : storeFind st.store s with
    | some x => simp [applyROp, ROp.value, getOrCreateMacReplacement,
        hfind]
    | none =>
      simp [applyROp, ROp.value, getOrCreateMacReplacement, hfind, randint,
        addStore, storeFind]
  | ip4 s =>
    cases hfind : storeFind st.store s with
    | some x => simp [applyROp, ROp.value, getOrCreateIpv4Replacement,
        hfind]
    | none =>
      simp only [applyROp, ROp.value, getOrCreateIpv4Replacement, hfind,
        randint, addStore]
      split_ifs <;> simp [storeFind]
  | ip6 s =>
    cases hfind : storeFind st.store s with
    | some x => simp [applyROp, ROp.value, getOrCreateIpv6Replacement,
        hfind]
    | none =>
      simp only [opValid, Option.isSome_iff_exists] at hv
      obtain ⟨hs, hp⟩ := hv
      obtain ⟨vs, st2, heq, hstore, _⟩ :=
        ipv6_getOrCreate_full s hs st hp hfind
      simp [applyROp, ROp.value, heq, addStore, storeFind]
  | ssid s =>
    cases hfind : storeFind st.store s with
    | some x => simp [applyROp, ROp.value, getOrCreateSsidReplacement,
        hfind]
    | none =>
      simp [applyROp, ROp.value, getOrCreateSsidReplacement, hfind,
        randChoice, addStore, storeFind]

/-- A rule application on an already-bound value returns the stored
replacement and leaves the state untouched. -/
theorem applyROp_hit (op : ROp) (st : AState) {r : Str}
    (h : storeFind st.store op.value = some r) :
    applyROp op st = (r, st) := by
  cases op <;>
    simp only [ROp.value] at h <;>
    simp [applyROp, getOrCreateMacReplacement, getOrCreateIpv4Replacement,
      getOrCreateIpv6Replacement, getOrCreateSsidReplacement, h]

/-- C1: two occurrences of the identical value processed by the
MAC/IPv4/IPv6/SSID replacement rules in one run produce the identical
replacement: the first valid occurrence fixes the stored replacement and
no later rule application removes it, so the second occurrence (after any
intervening rule applications) returns the same string. -/
theorem replacement_consistency (pre mid : List ROp) (a b : ROp)
    (st : AState) (hval : opValid a = true) (hv : a.value = b.value) :
    (applyROp a (runROps pre st)).1 =
      (applyROp b (runROps mid (applyROp a (runROps pre st)).2)).1 := by
  have hstores := applyROp_stores a (runROps pre st) hval
  have hmono := runROps_mono mid (applyROp a (runROps pre st)).2 hstores
  rw [hv] at hmono
  rw [applyROp_hit b _ hmono]

/-- Witness for C1: the value `8.8.8.8` first processed by the IPv4 rule
and later (after an unrelated SSID lookup) by the SSID rule yields the
identical replacement. -/
theorem replacement_consistency_witness :
    opValid (ROp.ip4 (strL "8.8.8.8")) = true ∧
    (ROp.ip4 (strL "8.8.8.8")).value = (ROp.ssid (strL "8.8.8.8")).value ∧
    (applyROp (ROp.ip4 (strL "8.8.8.8"))
        (runROps [ROp.ip4 (strL "9.9.9.9")] exSt)).1 =
      (applyROp (ROp.ssid (strL "8.8.8.8"))
        (runROps [ROp.ssid (strL "HomeNet")]
          (applyROp (ROp.ip4 (strL "8.8.8.8"))
            (runROps [ROp.ip4 (strL "9.9.9.9")] exSt)).2)).1 :=
  ⟨by decide, rfl,
    replacement_consistency [ROp.ip4 (strL "9.9.9.9")]
      [ROp.ssid (strL "HomeNet")] (ROp.ip4 (strL "8.8.8.8"))
      (ROp.ssid (strL "8.8.8.8")) exSt (by decide) rfl⟩

-- --- Claim C9: store lifecycle across runs ---

theorem scanSub_mono (tryM : Str → Option (Str × Str))
    (repl : Str → AState → Str × AState)
    (hrepl : ∀ (m : Str) (st : AState) (w r : Str),
      storeFind st.store w = some r →
      storeFind (repl m st).2.store w = some r) :
    ∀ (fuel : Nat) (pok : Bool) (cs : Str) (st : AState) {w r : Str},
      storeFind st.store w = some r →
      storeFind (scanSub tryM repl fuel pok cs st).2.store w = some r := by
  intro fuel
  induction fuel with
  | zero => intro pok cs st w r h; exact h
  | succ fuel ih =>
    intro pok cs st w r h
    cases cs with
    | nil => exact h
    | cons c cs2 =>
      rcases htry : (if pok then tryM (c :: cs2) else none) with
        _ | ⟨m, rest⟩
      · simp only [scanSub, htry]
        exact ih _ _ _ h
      · rcases hrp : repl m st with ⟨rr, st1⟩
        have h1 := hrepl m st _ _ h
        rw [hrp] at h1
        simp only [scanSub, htry, hrp]
        exact ih _ _ _ h1

theorem macSubAll_mono (s : Str) (st : AState) {w r : Str}
    (h : storeFind st.store w = some r) :
    storeFind (macSubAll s st).2.store w = some r :=
  scanSub_mono _ _
    (fun m st2 _ _ h2 => applyROp_mono (ROp.mac m) st2 h2) _ _ _ _ h

theorem subIpv4Match_mono (s : Str) (st : AState) {w r : Str}
    (h : storeFind st.store w = some r) :
    storeFind (subIpv4Match s st).2.store w = some r := by
  unfold subIpv4Match
  rcases hp : parseIPv4 s with _ | ⟨⟨a, b, c, d⟩⟩
  · exact h
  · dsimp only
    split_ifs
    · exact h
    · exact applyROp_mono (ROp.ip4 s) st h

theorem subIpv6Match_mono (s : Str) (st : AState) {w r : Str}
    (h : storeFind st.store w = some r) :
    storeFind (subIpv6Match s st).2.store w = some r := by
  unfold subIpv6Match
  rcases hp : parseIPv6 s with _ | hsx
  · exact h
  · exact applyROp_mono (ROp.ip6 s) st h

theorem ipv4SubAll_mono (s : Str) (st : AState) {w r : Str}
    (h : storeFind st.store w = some r) :
    storeFind (ipv4SubAll s st).2.store w = some r :=
  scanSub_mono _ _ (fun m st2 _ _ h2 => subIpv4Match_mono m st2 h2) _ _ _ _ h

theorem ipv6SubAll_mono (s : Str) (st : AState) {w r : Str}
    (h : storeFind st.store w = some r) :
    storeFind (ipv6SubAll s st).2.store w = some r :=
  scanSub_mono _ _ (fun m st2 _ _ h2 => subIpv6Match_mono m st2 h2) _ _ _ _ h

theorem anonymizeValue_mono (serial key : Str) (v : JVal) (st : AState)
    {w r : Str} (h : storeFind st.store w = some r) :
    storeFind (anonymizeValue serial key v st).2.store w = some r := by
  cases v with
  | str s =>
    simp only [anonymizeValue]
    split_ifs
    · exact h
    · exact h
    · exact h
    · exact h
    · rcases hdw : drawN 12 st with ⟨pw, st1⟩
      have hds := (drawN_state 12 st).1
      rw [hdw] at hds
      simp only [hdw]
      rw [hds]
      exact h
    · rcases hsd : getOrCreateSsidReplacement s st with ⟨rr, st1⟩
      have h1 := applyROp_mono (ROp.ssid s) st h
      rw [show applyROp (ROp.ssid s) st = getOrCreateSsidReplacement s st
        from rfl, hsd] at h1
      simpa [hsd] using h1
    · rcases hms : macSubAll s st with ⟨rr, st1⟩
      have h1 := macSubAll_mono s st h
      rw [hms] at h1
      simpa [hms] using h1
    · rcases hms : macSubAll s st with ⟨r1, st1⟩
      rcases h4s : ipv4SubAll r1 st1 with ⟨r2, st2⟩
      rcases h6s : ipv6SubAll r2 st2 with ⟨r3, st3⟩
      have h1 := macSubAll_mono s st h
      rw [hms] at h1
      have h2 := ipv4SubAll_mono r1 st1 h1
      rw [h4s] at h2
      have h3 := ipv6SubAll_mono r2 st2 h2
      rw [h6s] at h3
      simpa [hms, h4s, h6s] using h3
  | num n => exact h
  | bool b => exact h
  | null => exact h
  | arr xs => exact h
  | obj fs => exact h

mutual

theorem anonymizeData_mono (serial : Str) (v : JVal) (st : AState)
    {w r : Str} (h : storeFind st.store w = some r) :
    storeFind (anonymizeData serial v st).2.store w = some r := by
  cases v with
  | obj fs =>
    rcases hf : anonymizeFields serial fs st with ⟨fs1, st1⟩
    have h1 := anonymizeFields_mono serial fs st h
    rw [hf] at h1
    simpa [anonymizeData, hf] using h1
  | arr xs =>
    rcases hf : anonymizeList serial xs st with ⟨xs1, st1⟩
    have h1 := anonymizeList_mono serial xs st h
    rw [hf] at h1
    simpa [anonymizeData, hf] using h1
  | str s => exact h
  | num n => exact h
  | bool b => exact h
  | null => exact h

theorem anonymizeFields_mono (serial : Str) (fs : List (Str × JVal))
    (st : AState) {w r : Str} (h : storeFind st.store w = some r) :
    storeFind (anonymizeFields serial fs st).2.store w = some r := by
  cases fs with
  | nil => exact h
  | cons kv fs =>
    rcases kv with ⟨k, v⟩
    rcases hd : anonymizeData serial v st with ⟨dv, st1⟩
    rcases ha : anonymizeValue serial k dv st1 with ⟨av, st2⟩
    rcases hrest : anonymizeFields serial fs st2 with ⟨fs1, st3⟩
    have h1 := anonymizeData_mono serial v st h
    rw [hd] at h1
    have h2 := anonymizeValue_mono serial k dv st1 h1
    rw [ha] at h2
    have h3 := anonymizeFields_mono serial fs st2 h2
    rw [hrest] at h3
    simpa [anonymizeFields, hd, ha, hrest] using h3

theorem anonymizeList_mono (serial : Str) (xs : List JVal) (st : AState)
    {w r : Str} (h : storeFind st.store w = some r) :
    storeFind (anonymizeList serial xs st).2.store w = some r := by
  cases xs with
  | nil => exact h
  | cons v xs =>
    rcases hd : anonymizeData serial v st with ⟨dv, st1⟩
    rcases hrest : anonymizeList serial xs st1 with ⟨xs1, st2⟩
    have h1 := anonymizeData_mono serial v st h
    rw [hd] at h1
    have h2 := anonymizeList_mono serial xs st1 h1
    rw [hrest] at h2
    simpa [anonymizeList, hd, hrest] using h2

end

/-- C9 (amended): the replacement store is the module-global
`REPLACEMENTS_MAP`, which `anonymize_file` never clears or resets: every
binding present before a driver run is still present, unchanged, after the
run.  Two runs in the same process therefore share one store, and
replacements chosen in a first run are visible to (and, by the memoized
lookups, reused by) a second run. -/
theorem anonymizeFile_store_persistence (parseJson : Str → Option JVal)
    (dumpJson : JVal → Str) (serial : Str) (fs : List (Str × Str))
    (inputFile outputFile : Option Str) (st : AState) {w r : Str}
    (h : storeFind st.store w = some r) :
    storeFind
      ((anonymizeFile parseJson dumpJson serial fs inputFile outputFile
        st).state).store w = some r := by
  simp only [anonymizeFile]
  split_ifs
  · exact h
  · cases hc : storeFind fs (inputFile.getD []) with
    | none => simp only [hc]; exact h
    | some contents =>
      simp only [hc]
      cases hjp : parseJson contents with
      | none => simp only [hjp]; exact h
      | some data =>
        simp only [hjp]
        rcases hd : anonymizeData serial data st with ⟨outData, st1⟩
        simp only [hd]
        have h1 := anonymizeData_mono serial data st h
        rw [hd] at h1
        exact h1

/-- Witness for C9 (amended): a pre-existing binding survives a run. -/
theorem anonymizeFile_store_persistence_witness :
    storeFind
      ({ store := [(strL "8.8.8.8", strL "10.0.1.4")], g := fun _ => 0,
         i := 0 : AState }).store (strL "8.8.8.8") =
        some (strL "10.0.1.4") ∧
    storeFind
      ((anonymizeFile (fun _ => none) (fun _ => []) (strL "JW000000000000")
        [] (some (strL "in")) (some (strL "out"))
        { store := [(strL "8.8.8.8", strL "10.0.1.4")], g := fun _ => 0,
          i := 0 }).state).store (strL "8.8.8.8") =
      some (strL "10.0.1.4") :=
  ⟨rfl, anonymizeFile_store_persistence (fun _ => none) (fun _ => [])
    (strL "JW000000000000") [] (some (strL "in")) (some (strL "out"))
    { store := [(strL "8.8.8.8", strL "10.0.1.4")], g := fun _ => 0,
      i := 0 } rfl⟩

/-- Counterexample to C9 as stated: running the driver twice in one
process (threading the module-global state, as the code does) makes the
second run return the first run's replacement for `8.8.8.8` out of the
shared store, while a second run on an independent (empty) store would
produce a different replacement — so replacements chosen in the first run
are reused and visible in the second run. -/
theorem store_reused_across_runs :
    storeFind (anonymizeFile exParse exDump (strL "JW000000000000") exFs
      (some (strL "in1")) (some (strL "out1")) exStId).fs (strL "out1") =
      some (strL "10.0.1.4") ∧
    storeFind (anonymizeFile exParse exDump (strL "JW000000000000")
      (anonymizeFile exParse exDump (strL "JW000000000000") exFs
        (some (strL "in1")) (some (strL "out1")) exStId).fs
      (some (strL "in2")) (some (strL "out2"))
      (anonymizeFile exParse exDump (strL "JW000000000000") exFs
        (some (strL "in1")) (some (strL "out1")) exStId).state).fs
      (strL "out2") = some (strL "10.0.1.4") ∧
    storeFind (anonymizeFile exParse exDump (strL "JW000000000000")
      (anonymizeFile exParse exDump (strL "JW000000000000") exFs
        (some (strL "in1")) (some (strL "out1")) exStId).fs
      (some (strL "in2")) (some (strL "out2"))
      { (anonymizeFile exParse exDump (strL "JW000000000000") exFs
          (some (strL "in1")) (some (strL "out1")) exStId).state with
        store := [] }).fs (strL "out2") = some (strL "10.3.4.7") ∧
    strL "10.0.1.4" ≠ strL "10.3.4.7" := by
  refine ⟨by decide, by decide, by decide, by decide⟩

-- --- Claim C10: command-line driver failure behaviour ---

/-- C10 (code bug): invoked with only an input path, `main` passes the
default `None` output straight to `anonymize_file`, which prints
`Error: Both input and output file paths must be provided.` with a bare
`print` (standard output, not standard error) and returns normally; no
default output path of the form `<input>.anonymized.json` is ever
computed (contradicting the parser's own help text) and the process exit
status is 0, not non-zero. -/
theorem main_missing_output_no_default (parseJson : Str → Option JVal)
    (dumpJson : JVal → Str) (serial : Str) (fs : List (Str × Str))
    (inputFile : Str) (st : AState) :
    mainRun parseJson dumpJson serial fs inputFile none st =
      ({ printed :=
          [strL "Error: Both input and output file paths must be provided."],
         fs := fs, state := st }, 0) := by
  simp [mainRun, anonymizeFile, falsyPath]
